import Mathlib

/-!
Verification development for the kodomo-wallet repository.

The relational schema, its row-level-security policies and the
`handle_new_user` trigger are embedded from the SQL sources under
`src/database/schema` and the unnamed migration files.  The backend
service layer (FastAPI + Strawberry GraphQL) is not part of the source
snapshot — only its GraphQL callers and the schema are — so the ledger,
withdrawal-request, recurring-deposit and invite operations are modelled
from the specification (spec.md §4), as marked in each doc comment.

Ids and times are modelled as `Nat`, money amounts as `Int`
(`BIGINT`/`INTEGER` columns), nullable columns as `Option`.
-/

namespace KodomoWallet

/-- Transaction type, from the CHECK constraint
`type IN ('deposit','withdraw','reward')` in
`src/database/schema/01_create_tables.sql`. -/
inductive TxType where
  | deposit
  | withdraw
  | reward
deriving DecidableEq, Repr

/-- Withdrawal-request status, from the CHECK constraint
`status IN ('pending','approved','rejected')` in
`src/database/schema/01_create_tables.sql`. -/
inductive ReqStatus where
  | pending
  | approved
  | rejected
deriving DecidableEq, Repr

/-- Invite status, from the CHECK constraint
`status IN ('pending','accepted','expired','cancelled')` shared by
`parent_invites` (07_parent_invites.sql) and `child_invites`. -/
inductive InviteStatus where
  | pending
  | accepted
  | expired
  | cancelled
deriving DecidableEq, Repr

/-- Recurring-deposit execution status, from the CHECK constraint
`status IN ('success','failed','skipped')` in
`src/database/schema/07_parent_invites.sql` (the
`recurring_deposit_executions` section). -/
inductive ExecStatus where
  | success
  | failed
  | skipped
deriving DecidableEq, Repr

/-- Calendar timestamp, standing in for a `TIMESTAMPTZ` column where the
calendar month of the value matters (recurring-deposit executions). -/
structure Timestamp where
  year : Nat
  month : Nat
  day : Nat
deriving DecidableEq, Repr

/-- A row of `profiles` (01_create_tables.sql with the `auth_user_id`
column added by 09_add_auth_user_id_to_profiles.sql and the `email`
column used by the `handle_new_user` trigger).  `role` is the raw TEXT
value, constrained to `'parent'` or `'child'` by the schema CHECK. -/
structure Profile where
  id : Nat
  authUserId : Option Nat
  name : String
  role : String
  email : Option String
deriving DecidableEq, Repr

/-- A row of `accounts` (01_create_tables.sql). -/
structure Account where
  id : Nat
  userId : Nat
  balance : Int
  currency : String
  goalName : Option String
  goalAmount : Option Int
deriving DecidableEq, Repr

/-- A row of `transactions` (01_create_tables.sql). -/
structure Transaction where
  id : Nat
  accountId : Nat
  type : TxType
  amount : Int
  description : String
deriving DecidableEq, Repr

/-- A row of `withdrawal_requests` (01_create_tables.sql). -/
structure WithdrawalRequest where
  id : Nat
  accountId : Nat
  amount : Int
  description : String
  status : ReqStatus
deriving DecidableEq, Repr

/-- A row of `recurring_deposits` (04_recurring_deposits.sql). -/
structure RecurringDeposit where
  id : Nat
  accountId : Nat
  amount : Int
  dayOfMonth : Nat
  isActive : Bool
deriving DecidableEq, Repr

/-- A row of `recurring_deposit_executions`
(07_parent_invites.sql, lines 77-95). -/
structure RecurringDepositExecution where
  id : Nat
  recurringDepositId : Nat
  transactionId : Option Nat
  executedAt : Timestamp
  status : ExecStatus
  errorMessage : Option String
  amount : Int
  dayOfMonth : Nat
deriving DecidableEq, Repr

/-- A row of `parent_invites` (07_parent_invites.sql).  `expiresAt` is an
abstract clock reading compared against `now` at use time. -/
structure ParentInvite where
  id : Nat
  token : Nat
  childId : Nat
  inviterId : Nat
  email : String
  status : InviteStatus
  expiresAt : Nat
deriving DecidableEq, Repr

/-- A row of `child_invites` (src/unnamed/part_004). -/
structure ChildInvite where
  id : Nat
  token : Nat
  childId : Nat
  email : String
  status : InviteStatus
  expiresAt : Nat
deriving DecidableEq, Repr

/-- A row of `family_relationships` (06_family_relationships.sql). -/
structure FamilyRelationship where
  id : Nat
  parentId : Nat
  childId : Nat
deriving DecidableEq, Repr

/-- The row inserted into `auth.users` that fires the
`on_auth_user_created` trigger (src/unnamed/part_001): the new user id,
verified email, and the optional `raw_user_meta_data` fields. -/
structure NewAuthUser where
  id : Nat
  email : String
  metaName : Option String
  metaRole : Option String
deriving DecidableEq, Repr

/-- The durable state of the backing relational store: one list per
table of the persisted schema, plus a fresh-id counter standing in for
`gen_random_uuid()`. -/
structure AppState where
  profiles : List Profile
  accounts : List Account
  txs : List Transaction
  requests : List WithdrawalRequest
  recurs : List RecurringDeposit
  execs : List RecurringDepositExecution
  parentInvites : List ParentInvite
  childInvites : List ChildInvite
  rels : List FamilyRelationship
  nextId : Nat
deriving DecidableEq, Repr

/-- The empty store. -/
def initState : AppState :=
  { profiles := [], accounts := [], txs := [], requests := [], recurs := []
    execs := [], parentInvites := [], childInvites := [], rels := [], nextId := 1 }

/-- Error taxonomy of spec.md §7. -/
inductive OpError where
  | validationError
  | notFound
  | insufficientFunds
  | insufficientFundsAtApproval
  | unauthorized
  | inviteExpired
  | inviteAlreadyUsed
  | inviteNotFound
  | conflict
deriving DecidableEq, Repr

/-- Replace the balance of every `accounts` row whose `id` matches
(an SQL `UPDATE accounts SET balance = ... WHERE id = ...`). -/
def adjustBalance (accounts : List Account) (accId : Nat) (f : Int → Int) :
    List Account :=
  accounts.map fun a => if a.id == accId then { a with balance := f a.balance } else a

/-- Modelled from the spec: §4.1 `deposit(accountId, amount>0, description)`,
an operation of the backend service layer, which is absent from the source
snapshot.  Fails `ValidationError` on a non-positive amount, `NotFound` when
the account is missing; otherwise inserts a `deposit` Transaction and
increments the cached balance, atomically.  Errors leave the store
unchanged (spec §5: full rollback). -/
def deposit (st : AppState) (accountId : Nat) (amount : Int)
    (description : String) : AppState × Except OpError Transaction :=
  if amount ≤ 0 then (st, .error .validationError)
  else
    match st.accounts.find? (fun a => a.id == accountId) with
    | none => (st, .error .notFound)
    | some _ =>
      let t : Transaction :=
        { id := st.nextId, accountId := accountId, type := .deposit
          amount := amount, description := description }
      ({ st with
          accounts := adjustBalance st.accounts accountId (· + amount)
          txs := st.txs ++ [t]
          nextId := st.nextId + 1 }, .ok t)

/-- Modelled from the spec: §4.1 `withdraw(accountId, amount>0, description)`
of the absent backend service layer.  Fails `InsufficientFunds` when
`amount > balance`, checked against the balance read in the same atomic
transaction; otherwise inserts a `withdraw` Transaction and decrements the
balance.  Errors leave the store unchanged. -/
def withdraw (st : AppState) (accountId : Nat) (amount : Int)
    (description : String) : AppState × Except OpError Transaction :=
  if amount ≤ 0 then (st, .error .validationError)
  else
    match st.accounts.find? (fun a => a.id == accountId) with
    | none => (st, .error .notFound)
    | some a =>
      if a.balance < amount then (st, .error .insufficientFunds)
      else
        let t : Transaction :=
          { id := st.nextId, accountId := accountId, type := .withdraw
            amount := amount, description := description }
        ({ st with
            accounts := adjustBalance st.accounts accountId (· - amount)
            txs := st.txs ++ [t]
            nextId := st.nextId + 1 }, .ok t)

/-- Modelled from the spec: §4.1 `reward(...)` of the absent backend service
layer — same mechanics as `deposit`, distinct type for audit. -/
def reward (st : AppState) (accountId : Nat) (amount : Int)
    (description : String) : AppState × Except OpError Transaction :=
  if amount ≤ 0 then (st, .error .validationError)
  else
    match st.accounts.find? (fun a => a.id == accountId) with
    | none => (st, .error .notFound)
    | some _ =>
      let t : Transaction :=
        { id := st.nextId, accountId := accountId, type := .reward
          amount := amount, description := description }
      ({ st with
          accounts := adjustBalance st.accounts accountId (· + amount)
          txs := st.txs ++ [t]
          nextId := st.nextId + 1 }, .ok t)

/-- Modelled from the spec: §3 lifecycle — an account row is created at
signup or child-creation with the schema default `balance = 0`,
`currency = 'JPY'` (01_create_tables.sql). -/
def createAccount (st : AppState) (userId : Nat) : AppState :=
  { st with
      accounts := st.accounts ++
        [{ id := st.nextId, userId := userId, balance := 0
           currency := "JPY", goalName := none, goalAmount := none }]
      nextId := st.nextId + 1 }

/-- Modelled from the spec: §4.2 `create(accountId, amount>0, description)`
of the absent backend service layer.  Soft-checks `amount ≤ currentBalance`
for early feedback but reserves no funds; inserts a `pending` request. -/
def createWithdrawalRequest (st : AppState) (accountId : Nat) (amount : Int)
    (description : String) : AppState × Except OpError WithdrawalRequest :=
  if amount ≤ 0 then (st, .error .validationError)
  else
    match st.accounts.find? (fun a => a.id == accountId) with
    | none => (st, .error .notFound)
    | some a =>
      if a.balance < amount then (st, .error .validationError)
      else
        let r : WithdrawalRequest :=
          { id := st.nextId, accountId := accountId, amount := amount
            description := description, status := .pending }
        ({ st with requests := st.requests ++ [r], nextId := st.nextId + 1 }, .ok r)

/-- Modelled from the spec: §4.2 `approve(requestId)` of the absent backend
service layer.  Fails `Conflict` on a non-pending request; re-reads the
current balance inside the same transaction and fails
`InsufficientFundsAtApproval` when `amount > balance`, leaving the request
pending; otherwise creates a `withdraw` Transaction via the ledger and sets
`status = approved`. -/
def approveWithdrawalRequest (st : AppState) (reqId : Nat) :
    AppState × Except OpError Unit :=
  match st.requests.find? (fun r => r.id == reqId) with
  | none => (st, .error .notFound)
  | some r =>
    if r.status ≠ .pending then (st, .error .conflict)
    else
      match st.accounts.find? (fun a => a.id == r.accountId) with
      | none => (st, .error .notFound)
      | some a =>
        if a.balance < r.amount then (st, .error .insufficientFundsAtApproval)
        else
          let t : Transaction :=
            { id := st.nextId, accountId := r.accountId, type := .withdraw
              amount := r.amount, description := r.description }
          ({ st with
              accounts := adjustBalance st.accounts r.accountId (· - r.amount)
              txs := st.txs ++ [t]
              requests := st.requests.map fun q =>
                if q.id == reqId then { q with status := .approved } else q
              nextId := st.nextId + 1 }, .ok ())

/-- Modelled from the spec: §4.2 `reject(requestId)` of the absent backend
service layer.  Fails `Conflict` on a non-pending request; otherwise sets
`status = rejected` with no ledger side effect. -/
def rejectWithdrawalRequest (st : AppState) (reqId : Nat) :
    AppState × Except OpError Unit :=
  match st.requests.find? (fun r => r.id == reqId) with
  | none => (st, .error .notFound)
  | some r =>
    if r.status ≠ .pending then (st, .error .conflict)
    else
      ({ st with
          requests := st.requests.map fun q =>
            if q.id == reqId then { q with status := .rejected } else q },
        .ok ())

/-- Modelled from the spec: §6 `createOrUpdateRecurringDeposit`, the backend
operation behind `CREATE_OR_UPDATE_RECURRING_DEPOSIT`
(src/frontend/src/components/recurring-deposit-settings.tsx): at most one
RecurringDeposit per account, so a save updates the account's existing row
in place when one exists, and inserts a fresh row otherwise.  Amount and
day-of-month are validated per the schema CHECKs of
04_recurring_deposits.sql. -/
def createOrUpdateRecurringDeposit (st : AppState) (accountId : Nat)
    (amount : Int) (dayOfMonth : Nat) (isActive : Bool) :
    AppState × Except OpError RecurringDeposit :=
  if amount ≤ 0 then (st, .error .validationError)
  else if dayOfMonth < 1 ∨ 31 < dayOfMonth then (st, .error .validationError)
  else
    match st.accounts.find? (fun a => a.id == accountId) with
    | none => (st, .error .notFound)
    | some _ =>
      match st.recurs.find? (fun rd => rd.accountId == accountId) with
      | some rd =>
        let upd := { rd with amount := amount, dayOfMonth := dayOfMonth
                             isActive := isActive }
        ({ st with
            recurs := st.recurs.map fun q =>
              if q.accountId == accountId then
                { q with amount := amount, dayOfMonth := dayOfMonth
                         isActive := isActive }
              else q }, .ok upd)
      | none =>
        let rd : RecurringDeposit :=
          { id := st.nextId, accountId := accountId, amount := amount
            dayOfMonth := dayOfMonth, isActive := isActive }
        ({ st with recurs := st.recurs ++ [rd], nextId := st.nextId + 1 }, .ok rd)

/-- Modelled from the spec: §6 `deleteRecurringDeposit` — removes the
account's recurring-deposit row. -/
def deleteRecurringDeposit (st : AppState) (accountId : Nat) : AppState :=
  { st with recurs := st.recurs.filter fun rd => ¬ rd.accountId == accountId }

/-- Gregorian month length, for the rule of spec §4.3 that a `dayOfMonth`
past the end of the current month runs on the month's last day. -/
def daysInMonth (y m : Nat) : Nat :=
  if m == 2 then
    if y % 4 == 0 ∧ (y % 100 ≠ 0 ∨ y % 400 == 0) then 29 else 28
  else if m == 4 ∨ m == 6 ∨ m == 9 ∨ m == 11 then 30
  else 31

/-- The day of the month a recurring deposit runs on: its configured
`dayOfMonth`, clamped to the month's last day (spec §4.3). -/
def runDay (dayOfMonth y m : Nat) : Nat :=
  min dayOfMonth (daysInMonth y m)

/-- Whether a `success` execution row already exists for the given
recurring deposit in the given calendar month — the application-side
idempotency pre-check of spec §4.3 step 1. -/
def hasSuccessFor (execs : List RecurringDepositExecution)
    (rdId y m : Nat) : Bool :=
  execs.any fun e =>
    e.recurringDepositId == rdId && e.status == .success &&
      e.executedAt.year == y && e.executedAt.month == m

/-- Modelled from the spec: §4.3 — processing of one RecurringDeposit by
the scheduler run (the backend scheduler is absent from the source
snapshot).  Skips unless active and due today; skips when a `success` row
already exists for the current year-month (the pre-check); otherwise calls
`deposit` and records a `success` row with the transaction id, or a
`failed` row with an error message. -/
def runRecurringOne (today : Timestamp) (st : AppState)
    (rd : RecurringDeposit) : AppState :=
  if rd.isActive && today.day == runDay rd.dayOfMonth today.year today.month then
    if hasSuccessFor st.execs rd.id today.year today.month then st
    else
      match deposit st rd.accountId rd.amount "定期入金" with
      | (st2, .ok t) =>
        { st2 with
            execs := st2.execs ++
              [{ id := st2.nextId, recurringDepositId := rd.id
                 transactionId := some t.id, executedAt := today
                 status := .success, errorMessage := none
                 amount := rd.amount, dayOfMonth := rd.dayOfMonth }]
            nextId := st2.nextId + 1 }
      | (_, .error _) =>
        { st with
            execs := st.execs ++
              [{ id := st.nextId, recurringDepositId := rd.id
                 transactionId := none, executedAt := today
                 status := .failed, errorMessage := some "入金に失敗しました"
                 amount := rd.amount, dayOfMonth := rd.dayOfMonth }]
            nextId := st.nextId + 1 }
  else st

/-- Modelled from the spec: §4.3 — one scheduler invocation processes each
RecurringDeposit independently; one item's failure does not abort the
batch. -/
def runRecurringBatch (today : Timestamp) (st : AppState) : AppState :=
  st.recurs.foldl (runRecurringOne today) st

/-- Modelled from the spec: §4.4 `addRelationship(parentId, childId)` of
the absent backend service layer, combined with the schema facts in src:
the RLS INSERT policy `Parents can create family relationships`
(06_family_relationships.sql) requires the inserting parent's
`profiles.role = 'parent'`, and the insert is idempotent — a duplicate
`(parent_id, child_id)` is a no-op, as in the `ON CONFLICT (parent_id,
child_id) DO NOTHING` migration insert (05_family_relationships.sql). -/
def addRelationship (st : AppState) (parentId childId : Nat) :
    AppState × Except OpError Unit :=
  match st.profiles.find? (fun p => p.id == parentId) with
  | none => (st, .error .unauthorized)
  | some p =>
    if p.role ≠ "parent" then (st, .error .unauthorized)
    else if st.rels.any (fun r => r.parentId == parentId && r.childId == childId)
      then (st, .ok ())
    else
      ({ st with
          rels := st.rels ++
            [{ id := st.nextId, parentId := parentId, childId := childId }]
          nextId := st.nextId + 1 }, .ok ())

/-- Modelled from the spec: §4.4 `removeRelationship(parentId, childId)` —
deletes the edge without cascading into the child's data. -/
def removeRelationship (st : AppState) (parentId childId : Nat) : AppState :=
  { st with
      rels := st.rels.filter fun r =>
        ¬ (r.parentId == parentId && r.childId == childId) }

/-- Modelled from the spec: §4.4 `childrenOf(parentId)` read query. -/
def childrenOf (st : AppState) (parentId : Nat) : List Nat :=
  (st.rels.filter fun r => r.parentId == parentId).map fun r => r.childId

/-- Modelled from the spec: §4.5 creation of a ParentInvite token by an
existing parent (7-day expiry), inserted `pending`. -/
def createParentInvite (st : AppState) (childId inviterId : Nat)
    (email : String) (token expiresAt : Nat) : AppState :=
  { st with
      parentInvites := st.parentInvites ++
        [{ id := st.nextId, token := token, childId := childId
           inviterId := inviterId, email := email, status := .pending
           expiresAt := expiresAt }]
      nextId := st.nextId + 1 }

/-- Modelled from the spec: §4.5 creation of a ChildInvite token bound to a
placeholder profile and email, inserted `pending`. -/
def createChildInvite (st : AppState) (childId : Nat) (email : String)
    (token expiresAt : Nat) : AppState :=
  { st with
      childInvites := st.childInvites ++
        [{ id := st.nextId, token := token, childId := childId
           email := email, status := .pending, expiresAt := expiresAt }]
      nextId := st.nextId + 1 }

/-- Modelled from the spec: §4.5 `acceptParentInvite(token, currentParentId)`
of the absent backend service layer (called through the
`ACCEPT_PARENT_INVITE` mutation in
src/frontend/src/app/accept-invite/page.tsx).  Validates the token is
`pending` and unexpired — a row still `pending` in storage whose
`expiresAt` has passed is rejected with `InviteExpired` —, then for each
of the inviter's children runs the idempotent
`addRelationship(currentParentId, childId)`, and marks the invite
`accepted`.  Profile identity and accounts are untouched. -/
def acceptParentInvite (now : Nat) (st : AppState) (token currentParentId : Nat) :
    AppState × Except OpError Unit :=
  match st.parentInvites.find? (fun i => i.token == token) with
  | none => (st, .error .inviteNotFound)
  | some inv =>
    if inv.status ≠ .pending then (st, .error .inviteAlreadyUsed)
    else if inv.expiresAt ≤ now then (st, .error .inviteExpired)
    else
      let st2 := (childrenOf st inv.inviterId).foldl
        (fun s c => (addRelationship s currentParentId c).1) st
      ({ st2 with
          parentInvites := st2.parentInvites.map fun i =>
            if i.token == token then { i with status := .accepted } else i },
        .ok ())

/-- Modelled from the spec: §4.5 `acceptChildInvite(token, authenticatedUserId)`
of the absent backend service layer (called through `ACCEPT_CHILD_INVITE`
in src/frontend/src/app/child-invite-callback/page.tsx).  Validates the
token is `pending` and unexpired (same lazy expiry rule), then attaches
authentication — `Profile.authUserId := authenticatedUserId` on the bound
profile, preserving the profile id and every owned account and
transaction — and marks the invite `accepted`. -/
def acceptChildInvite (now : Nat) (st : AppState) (token authUserId : Nat) :
    AppState × Except OpError Unit :=
  match st.childInvites.find? (fun i => i.token == token) with
  | none => (st, .error .inviteNotFound)
  | some inv =>
    if inv.status ≠ .pending then (st, .error .inviteAlreadyUsed)
    else if inv.expiresAt ≤ now then (st, .error .inviteExpired)
    else
      ({ st with
          profiles := st.profiles.map fun p =>
            if p.id == inv.childId then { p with authUserId := some authUserId }
            else p
          childInvites := st.childInvites.map fun i =>
            if i.token == token then { i with status := .accepted } else i },
        .ok ())

/-- The `handle_new_user` trigger function of src/unnamed/part_001, fired
after an INSERT on `auth.users`: look for a profile with the same email
and `auth_user_id IS NULL` (LIMIT 1); if found, set its `auth_user_id` to
the new user's id; otherwise insert a brand-new profile whose name and
role come from `raw_user_meta_data` with COALESCE defaults `'ユーザー'`
and `'parent'` (the trigger's INSERT lists no email column, so the new
row's email is NULL).  `newId` stands for the generated
`gen_random_uuid()`. -/
def handleNewUser (st : AppState) (u : NewAuthUser) (newId : Nat) : AppState :=
  match st.profiles.find?
      (fun p => p.email == some u.email && p.authUserId == none) with
  | some p0 =>
    { st with
        profiles := st.profiles.map fun p =>
          if p.id == p0.id then { p with authUserId := some u.id } else p }
  | none =>
    { st with
        profiles := st.profiles ++
          [{ id := newId, authUserId := some u.id
             name := u.metaName.getD "ユーザー"
             role := u.metaRole.getD "parent", email := none }] }

/-- The SQL commands a row-level-security policy can cover. -/
inductive PolicyCmd where
  | select
  | insert
  | update
  | delete
deriving DecidableEq, Repr

/-- One `CREATE POLICY` statement: its name, target table and command. -/
structure Policy where
  name : String
  table : String
  cmd : PolicyCmd
deriving DecidableEq, Repr

/-- Every policy of src/database/schema/02_row_level_security.sql, in file
order.  RLS is enabled on all five tables, so any command without a policy
is denied. -/
def rlsPolicies : List Policy :=
  [ { name := "Users can view own profile", table := "profiles", cmd := .select }
  , { name := "Parents can view children profiles", table := "profiles", cmd := .select }
  , { name := "Users can update own profile", table := "profiles", cmd := .update }
  , { name := "Users can insert own profile", table := "profiles", cmd := .insert }
  , { name := "Users can view own accounts", table := "accounts", cmd := .select }
  , { name := "Parents can view children accounts", table := "accounts", cmd := .select }
  , { name := "Users can insert own accounts", table := "accounts", cmd := .insert }
  , { name := "Parents can insert children accounts", table := "accounts", cmd := .insert }
  , { name := "Users can update own accounts", table := "accounts", cmd := .update }
  , { name := "Parents can update children accounts", table := "accounts", cmd := .update }
  , { name := "Users can view own transactions", table := "transactions", cmd := .select }
  , { name := "Parents can view children transactions", table := "transactions", cmd := .select }
  , { name := "Parents can insert transactions", table := "transactions", cmd := .insert }
  , { name := "Users can view own withdrawal requests", table := "withdrawal_requests", cmd := .select }
  , { name := "Parents can view children withdrawal requests", table := "withdrawal_requests", cmd := .select }
  , { name := "Children can insert own withdrawal requests", table := "withdrawal_requests", cmd := .insert }
  , { name := "Parents can update children withdrawal requests", table := "withdrawal_requests", cmd := .update }
  , { name := "Users can view own family relationships", table := "family_relationships", cmd := .select }
  , { name := "Parents can create family relationships", table := "family_relationships", cmd := .insert }
  , { name := "Parents can delete family relationships", table := "family_relationships", cmd := .delete }
  ]

/-- Whether some RLS policy covers the given command on the given table;
with RLS enabled, a command with no covering policy is rejected. -/
def rlsHasPolicy (table : String) (cmd : PolicyCmd) : Bool :=
  rlsPolicies.any fun p => p.table == table && p.cmd == cmd

/-- The signed ledger contribution of a transaction: deposits and rewards
count positively, withdrawals negatively (spec §3 global invariant). -/
def txSigned (t : Transaction) : Int :=
  match t.type with
  | .withdraw => -t.amount
  | _ => t.amount

/-- Σ(deposit+reward amounts) − Σ(withdraw amounts) over one account's
transaction rows. -/
def txSum (accId : Nat) : List Transaction → Int
  | [] => 0
  | t :: ts => (if t.accountId = accId then txSigned t else 0) + txSum accId ts

/-- The row constraints the schema declares on
`recurring_deposit_executions` (07_parent_invites.sql lines 77-95): the
foreign keys to `recurring_deposits` and `transactions`, and the CHECK
`day_of_month BETWEEN 1 AND 31`; the status CHECK is inherent in
`ExecStatus`. -/
def execRowOk (rdIds txIds : List Nat) (e : RecurringDepositExecution) : Prop :=
  e.recurringDepositId ∈ rdIds ∧
    (∀ tid ∈ e.transactionId, tid ∈ txIds) ∧
    1 ≤ e.dayOfMonth ∧ e.dayOfMonth ≤ 31

/-- A table of execution rows satisfying everything the schema enforces:
primary-key uniqueness of `id` plus the row constraints.  The schema
declares no other uniqueness (its three indexes are non-unique). -/
def execTableValid (rdIds txIds : List Nat)
    (t : List RecurringDepositExecution) : Prop :=
  t.Pairwise (fun e1 e2 => e1.id ≠ e2.id) ∧ ∀ e ∈ t, execRowOk rdIds txIds e

/-- At most one `success` execution row per
(recurringDepositId, calendar year-month). -/
def execMonthlyUnique (t : List RecurringDepositExecution) : Prop :=
  t.Pairwise fun e1 e2 =>
    ¬ (e1.recurringDepositId = e2.recurringDepositId ∧
        e1.executedAt.year = e2.executedAt.year ∧
        e1.executedAt.month = e2.executedAt.month ∧
        e1.status = .success ∧ e2.status = .success)

/-- The internal invariant maintained by every operation: cached balances
agree with the transaction log, all transaction and request amounts are
positive, and request ids are fresh and injective. -/
structure Inv (st : AppState) : Prop where
  ledger : ∀ a ∈ st.accounts, a.balance = txSum a.id st.txs
  txPos : ∀ t ∈ st.txs, 0 < t.amount
  reqPos : ∀ r ∈ st.requests, 0 < r.amount
  reqFresh : ∀ r ∈ st.requests, r.id < st.nextId
  reqInj : ∀ q1 ∈ st.requests, ∀ q2 ∈ st.requests, q1.id = q2.id → q1 = q2
  accFresh : ∀ a ∈ st.accounts, a.id < st.nextId
  txAccFresh : ∀ t ∈ st.txs, t.accountId < st.nextId

/-- One mutating call of spec §6's external interface, as a relation
between observable store states. -/
inductive Step : AppState → AppState → Prop where
  | ofHandleNewUser (st : AppState) (u : NewAuthUser) (newId : Nat) :
      Step st (handleNewUser st u newId)
  | ofCreateAccount (st : AppState) (userId : Nat) :
      Step st (createAccount st userId)
  | ofDeposit (st : AppState) (accountId : Nat) (amount : Int) (d : String) :
      Step st (deposit st accountId amount d).1
  | ofWithdraw (st : AppState) (accountId : Nat) (amount : Int) (d : String) :
      Step st (withdraw st accountId amount d).1
  | ofReward (st : AppState) (accountId : Nat) (amount : Int) (d : String) :
      Step st (reward st accountId amount d).1
  | ofCreateRequest (st : AppState) (accountId : Nat) (amount : Int) (d : String) :
      Step st (createWithdrawalRequest st accountId amount d).1
  | ofApprove (st : AppState) (reqId : Nat) :
      Step st (approveWithdrawalRequest st reqId).1
  | ofReject (st : AppState) (reqId : Nat) :
      Step st (rejectWithdrawalRequest st reqId).1
  | ofCreateOrUpdateRecurring (st : AppState) (accountId : Nat) (amount : Int)
      (dayOfMonth : Nat) (isActive : Bool) :
      Step st (createOrUpdateRecurringDeposit st accountId amount dayOfMonth isActive).1
  | ofDeleteRecurring (st : AppState) (accountId : Nat) :
      Step st (deleteRecurringDeposit st accountId)
  | ofRunRecurringBatch (st : AppState) (today : Timestamp) :
      Step st (runRecurringBatch today st)
  | ofCreateParentInvite (st : AppState) (childId inviterId : Nat) (email : String)
      (token expiresAt : Nat) :
      Step st (createParentInvite st childId inviterId email token expiresAt)
  | ofCreateChildInvite (st : AppState) (childId : Nat) (email : String)
      (token expiresAt : Nat) :
      Step st (createChildInvite st childId email token expiresAt)
  | ofAcceptParentInvite (now : Nat) (st : AppState) (token currentParentId : Nat) :
      Step st (acceptParentInvite now st token currentParentId).1
  | ofAcceptChildInvite (now : Nat) (st : AppState) (token authUserId : Nat) :
      Step st (acceptChildInvite now st token authUserId).1
  | ofAddRelationship (st : AppState) (parentId childId : Nat) :
      Step st (addRelationship st parentId childId).1
  | ofRemoveRelationship (st : AppState) (parentId childId : Nat) :
      Step st (removeRelationship st parentId childId)

/-- The observable points in time: store states reachable from the empty
store by mutating calls. -/
inductive Reachable : AppState → Prop where
  | init : Reachable initState
  | step {st st2 : AppState} : Reachable st → Step st st2 → Reachable st2

theorem txSum_append (accId : Nat) (l : List Transaction) (t : Transaction) :
    txSum accId (l ++ [t]) =
      txSum accId l + (if t.accountId = accId then txSigned t else 0) := by
  induction l with
  | nil => simp [txSum]
  | cons b bs ih => simp [txSum, ih]; ring

theorem txSum_eq_zero {accId : Nat} {l : List Transaction}
    (h : ∀ t ∈ l, t.accountId ≠ accId) : txSum accId l = 0 := by
  induction l with
  | nil => rfl
  | cons b bs ih =>
    have hb := h b (by simp)
    simp [txSum, hb, ih fun t ht => h t (by simp [ht])]

theorem find?_adjustBalance {accounts : List Account} {accId : Nat}
    {a : Account} (f : Int → Int)
    (h : accounts.find? (fun b => b.id == accId) = some a) :
    (adjustBalance accounts accId f).find? (fun b => b.id == accId) =
      some { a with balance := f a.balance } := by
  induction accounts with
  | nil => simp at h
  | cons b bs ih =>
    rw [show adjustBalance (b :: bs) accId f =
          (if b.id == accId then { b with balance := f b.balance } else b) ::
            adjustBalance bs accId f from rfl]
    by_cases hb : b.id = accId
    · rw [List.find?_cons_of_pos _ (by simp [hb])] at h
      injection h with h2
      subst h2
      rw [if_pos (by simp [hb])]
      exact List.find?_cons_of_pos _ (by simp [hb])
    · rw [List.find?_cons_of_neg _ (by simp [hb])] at h
      rw [if_neg (by simp [hb])]
      rw [List.find?_cons_of_neg _ (by simp [hb])]
      exact ih h

theorem ledger_post {accounts : List Account} {txs : List Transaction}
    {accId : Nat} {t : Transaction} {f : Int → Int}
    (hf : ∀ b, f b = b + txSigned t)
    (hbal : ∀ a ∈ accounts, a.balance = txSum a.id txs)
    (hacc : t.accountId = accId) :
    ∀ a2 ∈ adjustBalance accounts accId f,
      a2.balance = txSum a2.id (txs ++ [t]) := by
  intro a2 ha2
  rcases List.mem_map.mp ha2 with ⟨a, ha, rfl⟩
  by_cases h : a.id = accId
  · simp [h, hf, txSum_append, hacc, hbal a ha]
  · simp [h, txSum_append, hacc, Ne.symm h, hbal a ha]

theorem inv_frame {st st2 : AppState} (hA : st2.accounts = st.accounts)
    (hT : st2.txs = st.txs) (hR : st2.requests = st.requests)
    (hN : st.nextId ≤ st2.nextId) (h : Inv st) : Inv st2 where
  ledger := by rw [hA, hT]; exact h.ledger
  txPos := by rw [hT]; exact h.txPos
  reqPos := by rw [hR]; exact h.reqPos
  reqFresh := by rw [hR]; exact fun r hr => lt_of_lt_of_le (h.reqFresh r hr) hN
  reqInj := by rw [hR]; exact h.reqInj
  accFresh := by rw [hA]; exact fun a ha => lt_of_lt_of_le (h.accFresh a ha) hN
  txAccFresh := by rw [hT]; exact fun t ht => lt_of_lt_of_le (h.txAccFresh t ht) hN

theorem inv_initState : Inv initState where
  ledger := by intro a ha; simp [initState] at ha
  txPos := by intro t ht; simp [initState] at ht
  reqPos := by intro r hr; simp [initState] at hr
  reqFresh := by intro r hr; simp [initState] at hr
  reqInj := by intro q1 h1; simp [initState] at h1
  accFresh := by intro a ha; simp [initState] at ha
  txAccFresh := by intro t ht; simp [initState] at ht

theorem inv_handleNewUser {st : AppState} (u : NewAuthUser) (newId : Nat)
    (h : Inv st) : Inv (handleNewUser st u newId) := by
  unfold handleNewUser
  rcases hf : st.profiles.find? fun p =>
      p.email == some u.email && p.authUserId == none with _ | p0 <;>
    simp only [hf] <;> exact @inv_frame st _ rfl rfl rfl le_rfl h

theorem inv_createAccount {st : AppState} (userId : Nat) (h : Inv st) :
    Inv (createAccount st userId) where
  ledger := by
    intro a ha
    simp only [createAccount, List.mem_append, List.mem_singleton] at ha
    rcases ha with ha | rfl
    · exact h.ledger a ha
    · exact (txSum_eq_zero fun t ht => Nat.ne_of_lt (h.txAccFresh t ht)).symm
  txPos := h.txPos
  reqPos := h.reqPos
  reqFresh := fun r hr => Nat.lt_succ_of_lt (h.reqFresh r hr)
  reqInj := h.reqInj
  accFresh := by
    intro a ha
    simp only [createAccount, List.mem_append, List.mem_singleton] at ha
    rcases ha with ha | rfl
    · exact Nat.lt_succ_of_lt (h.accFresh a ha)
    · exact Nat.lt_succ_self _
  txAccFresh := fun t ht => Nat.lt_succ_of_lt (h.txAccFresh t ht)

theorem adjustBalance_id_mem {accounts : List Account} {accId : Nat}
    {f : Int → Int} :
    ∀ a2 ∈ adjustBalance accounts accId f, ∃ a ∈ accounts, a2.id = a.id := by
  intro a2 ha2
  rcases List.mem_map.mp ha2 with ⟨a, ha, rfl⟩
  refine ⟨a, ha, ?_⟩
  by_cases hid : a.id = accId <;> simp [hid]

theorem find?_id_lt {st : AppState} {accId : Nat} {a : Account}
    (h : Inv st) (hf : st.accounts.find? (fun b => b.id == accId) = some a) :
    accId < st.nextId := by
  have hmem := List.mem_of_find?_eq_some hf
  have hpred : a.id = accId := by simpa using List.find?_some hf
  exact hpred ▸ h.accFresh a hmem

theorem inv_ledgerInsert {st : AppState} {accId : Nat} {t : Transaction}
    {f : Int → Int} (hf : ∀ b, f b = b + txSigned t)
    (ht : t.accountId = accId) (hpos : 0 < t.amount)
    (hlt : accId < st.nextId) (h : Inv st) :
    Inv { st with accounts := adjustBalance st.accounts accId f
                  txs := st.txs ++ [t], nextId := st.nextId + 1 } := by
  refine ⟨?_, ?_, ?_, ?_, ?_, ?_, ?_⟩ <;> dsimp only
  · exact ledger_post hf h.ledger ht
  · intro t2 ht2
    rcases List.mem_append.mp ht2 with ht2 | ht2
    · exact h.txPos t2 ht2
    · simp only [List.mem_singleton] at ht2
      subst ht2
      exact hpos
  · exact h.reqPos
  · exact fun r hr => Nat.lt_succ_of_lt (h.reqFresh r hr)
  · exact h.reqInj
  · intro a2 ha2
    rcases adjustBalance_id_mem a2 ha2 with ⟨a0, ha0, hid⟩
    exact hid ▸ Nat.lt_succ_of_lt (h.accFresh a0 ha0)
  · intro t2 ht2
    rcases List.mem_append.mp ht2 with ht2 | ht2
    · exact Nat.lt_succ_of_lt (h.txAccFresh t2 ht2)
    · simp only [List.mem_singleton] at ht2
      subst ht2
      rw [ht]
      exact Nat.lt_succ_of_lt hlt

theorem inv_deposit {st : AppState} (accountId : Nat) (amount : Int)
    (d : String) (h : Inv st) : Inv (deposit st accountId amount d).1 := by
  unfold deposit
  by_cases hamt : amount ≤ 0
  · simp only [if_pos hamt]; exact h
  · simp only [if_neg hamt]
    rcases hf : st.accounts.find? (fun a => a.id == accountId) with _ | a <;>
      simp only [hf]
    · exact h
    · exact inv_ledgerInsert (fun b => by simp [txSigned]) rfl
        (lt_of_not_le hamt) (find?_id_lt h hf) h

theorem inv_reward {st : AppState} (accountId : Nat) (amount : Int)
    (d : String) (h : Inv st) : Inv (reward st accountId amount d).1 := by
  unfold reward
  by_cases hamt : amount ≤ 0
  · simp only [if_pos hamt]; exact h
  · simp only [if_neg hamt]
    rcases hf : st.accounts.find? (fun a => a.id == accountId) with _ | a <;>
      simp only [hf]
    · exact h
    · exact inv_ledgerInsert (fun b => by simp [txSigned]) rfl
        (lt_of_not_le hamt) (find?_id_lt h hf) h

theorem inv_withdraw {st : AppState} (accountId : Nat) (amount : Int)
    (d : String) (h : Inv st) : Inv (withdraw st accountId amount d).1 := by
  unfold withdraw
  by_cases hamt : amount ≤ 0
  · simp only [if_pos hamt]; exact h
  · simp only [if_neg hamt]
    rcases hf : st.accounts.find? (fun a => a.id == accountId) with _ | a <;>
      simp only [hf]
    · exact h
    · by_cases hbal : a.balance < amount
      · simp only [if_pos hbal]; exact h
      · simp only [if_neg hbal]
        exact inv_ledgerInsert (fun b => by simp [txSigned, sub_eq_add_neg]) rfl
          (lt_of_not_le hamt) (find?_id_lt h hf) h

theorem inv_createRequest {st : AppState} (accountId : Nat) (amount : Int)
    (d : String) (h : Inv st) :
    Inv (createWithdrawalRequest st accountId amount d).1 := by
  unfold createWithdrawalRequest
  by_cases hamt : amount ≤ 0
  · simp only [if_pos hamt]; exact h
  · simp only [if_neg hamt]
    rcases hf : st.accounts.find? (fun a => a.id == accountId) with _ | a <;>
      simp only [hf]
    · exact h
    · by_cases hbal : a.balance < amount
      · simp only [if_pos hbal]; exact h
      · simp only [if_neg hbal]
        refine ⟨?_, ?_, ?_, ?_, ?_, ?_, ?_⟩ <;> dsimp only
        · exact h.ledger
        · exact h.txPos
        · intro r hr
          rcases List.mem_append.mp hr with hr | hr
          · exact h.reqPos r hr
          · simp only [List.mem_singleton] at hr
            subst hr
            exact lt_of_not_le hamt
        · intro r hr
          rcases List.mem_append.mp hr with hr | hr
          · exact Nat.lt_succ_of_lt (h.reqFresh r hr)
          · simp only [List.mem_singleton] at hr
            subst hr
            exact Nat.lt_succ_self _
        · intro q1 h1 q2 h2 hid
          rcases List.mem_append.mp h1 with h1 | h1 <;>
            rcases List.mem_append.mp h2 with h2 | h2
          · exact h.reqInj q1 h1 q2 h2 hid
          · simp only [List.mem_singleton] at h2
            subst h2
            exact absurd hid (Nat.ne_of_lt (h.reqFresh q1 h1))
          · simp only [List.mem_singleton] at h1
            subst h1
            exact absurd hid.symm (Nat.ne_of_lt (h.reqFresh q2 h2))
          · simp only [List.mem_singleton] at h1 h2
            rw [h1, h2]
        · exact fun a2 ha2 => Nat.lt_succ_of_lt (h.accFresh a2 ha2)
        · exact fun t2 ht2 => Nat.lt_succ_of_lt (h.txAccFresh t2 ht2)

theorem reqStatusMap_facts {st : AppState} (reqId : Nat) (s : ReqStatus)
    (h : Inv st) :
    (∀ r ∈ st.requests.map (fun q =>
        if q.id == reqId then { q with status := s } else q), 0 < r.amount) ∧
    (∀ r ∈ st.requests.map (fun q =>
        if q.id == reqId then { q with status := s } else q), r.id < st.nextId) ∧
    (∀ q1 ∈ st.requests.map (fun q =>
        if q.id == reqId then { q with status := s } else q),
      ∀ q2 ∈ st.requests.map (fun q =>
        if q.id == reqId then { q with status := s } else q),
      q1.id = q2.id → q1 = q2) := by
  have hamt : ∀ q : WithdrawalRequest,
      ((if q.id == reqId then { q with status := s } else q) : WithdrawalRequest).amount
        = q.amount := by
    intro q
    by_cases hq : q.id = reqId <;> simp [hq]
  have hid : ∀ q : WithdrawalRequest,
      ((if q.id == reqId then { q with status := s } else q) : WithdrawalRequest).id
        = q.id := by
    intro q
    by_cases hq : q.id = reqId <;> simp [hq]
  refine ⟨?_, ?_, ?_⟩
  · intro r hr
    rcases List.mem_map.mp hr with ⟨q, hq, rfl⟩
    rw [hamt q]
    exact h.reqPos q hq
  · intro r hr
    rcases List.mem_map.mp hr with ⟨q, hq, rfl⟩
    rw [hid q]
    exact h.reqFresh q hq
  · intro q1 h1 q2 h2 heq
    rcases List.mem_map.mp h1 with ⟨p1, hp1, rfl⟩
    rcases List.mem_map.mp h2 with ⟨p2, hp2, rfl⟩
    rw [hid p1, hid p2] at heq
    rw [h.reqInj p1 hp1 p2 hp2 heq]

theorem inv_approve {st : AppState} (reqId : Nat) (h : Inv st) :
    Inv (approveWithdrawalRequest st reqId).1 := by
  unfold approveWithdrawalRequest
  rcases hfr : st.requests.find? (fun r => r.id == reqId) with _ | r <;>
    simp only [hfr]
  · exact h
  · by_cases hst : r.status ≠ .pending
    · simp only [if_pos hst]; exact h
    · simp only [if_neg hst]
      rcases hfa : st.accounts.find? (fun a => a.id == r.accountId) with _ | a <;>
        simp only [hfa]
      · exact h
      · by_cases hbal : a.balance < r.amount
        · simp only [if_pos hbal]; exact h
        · simp only [if_neg hbal]
          have hfacts := reqStatusMap_facts reqId ReqStatus.approved h
          refine ⟨?_, ?_, ?_, ?_, ?_, ?_, ?_⟩ <;> dsimp only
          · exact ledger_post (fun b => by simp [txSigned, sub_eq_add_neg])
              h.ledger rfl
          · intro t2 ht2
            rcases List.mem_append.mp ht2 with ht2 | ht2
            · exact h.txPos t2 ht2
            · simp only [List.mem_singleton] at ht2
              subst ht2
              exact h.reqPos r (List.mem_of_find?_eq_some hfr)
          · exact hfacts.1
          · exact fun r2 hr2 => Nat.lt_succ_of_lt (hfacts.2.1 r2 hr2)
          · exact hfacts.2.2
          · intro a2 ha2
            rcases adjustBalance_id_mem a2 ha2 with ⟨a0, ha0, hid⟩
            exact hid ▸ Nat.lt_succ_of_lt (h.accFresh a0 ha0)
          · intro t2 ht2
            rcases List.mem_append.mp ht2 with ht2 | ht2
            · exact Nat.lt_succ_of_lt (h.txAccFresh t2 ht2)
            · simp only [List.mem_singleton] at ht2
              subst ht2
              exact Nat.lt_succ_of_lt (find?_id_lt h hfa)

theorem inv_reject {st : AppState} (reqId : Nat) (h : Inv st) :
    Inv (rejectWithdrawalRequest st reqId).1 := by
  unfold rejectWithdrawalRequest
  rcases hfr : st.requests.find? (fun r => r.id == reqId) with _ | r <;>
    simp only [hfr]
  · exact h
  · by_cases hst : r.status ≠ .pending
    · simp only [if_pos hst]; exact h
    · simp only [if_neg hst]
      have hfacts := reqStatusMap_facts reqId ReqStatus.rejected h
      exact ⟨h.ledger, h.txPos, hfacts.1, hfacts.2.1, hfacts.2.2,
        h.accFresh, h.txAccFresh⟩

/-- The parts of the store an operation on invites, relationships or
recurring-deposit settings leaves untouched (the ledger tables and the
request table), together with monotonicity of the id counter. -/
def LedgerFrame (s s2 : AppState) : Prop :=
  s2.accounts = s.accounts ∧ s2.txs = s.txs ∧ s2.requests = s.requests ∧
    s.nextId ≤ s2.nextId

theorem ledgerFrame_rfl (s : AppState) : LedgerFrame s s :=
  ⟨rfl, rfl, rfl, le_rfl⟩

theorem ledgerFrame_trans {s1 s2 s3 : AppState} (h1 : LedgerFrame s1 s2)
    (h2 : LedgerFrame s2 s3) : LedgerFrame s1 s3 :=
  ⟨h2.1.trans h1.1, h2.2.1.trans h1.2.1, h2.2.2.1.trans h1.2.2.1,
    h1.2.2.2.trans h2.2.2.2⟩

theorem inv_of_ledgerFrame {s s2 : AppState} (hf : LedgerFrame s s2)
    (h : Inv s) : Inv s2 :=
  inv_frame hf.1 hf.2.1 hf.2.2.1 hf.2.2.2 h

theorem addRel_ledgerFrame (s : AppState) (p c : Nat) :
    LedgerFrame s (addRelationship s p c).1 := by
  unfold addRelationship
  rcases hf : s.profiles.find? (fun q => q.id == p) with _ | p0 <;> simp only [hf]
  · exact ledgerFrame_rfl s
  · by_cases hrole : p0.role ≠ "parent"
    · simp only [if_pos hrole]
      exact ledgerFrame_rfl s
    · simp only [if_neg hrole]
      by_cases hdup : (s.rels.any fun r => r.parentId == p && r.childId == c) = true
      · simp only [if_pos hdup]
        exact ledgerFrame_rfl s
      · simp only [if_neg hdup]
        exact ⟨rfl, rfl, rfl, Nat.le_succ _⟩

theorem addRel_profiles (s : AppState) (p c : Nat) :
    (addRelationship s p c).1.profiles = s.profiles := by
  unfold addRelationship
  rcases hf : s.profiles.find? (fun q => q.id == p) with _ | p0 <;> simp only [hf]
  by_cases hrole : p0.role ≠ "parent"
  · simp only [if_pos hrole]
  · simp only [if_neg hrole]
    by_cases hdup : (s.rels.any fun r => r.parentId == p && r.childId == c) = true
    · simp only [if_pos hdup]
    · simp only [if_neg hdup]

theorem addRel_parentInvites (s : AppState) (p c : Nat) :
    (addRelationship s p c).1.parentInvites = s.parentInvites := by
  unfold addRelationship
  rcases hf : s.profiles.find? (fun q => q.id == p) with _ | p0 <;> simp only [hf]
  by_cases hrole : p0.role ≠ "parent"
  · simp only [if_pos hrole]
  · simp only [if_neg hrole]
    by_cases hdup : (s.rels.any fun r => r.parentId == p && r.childId == c) = true
    · simp only [if_pos hdup]
    · simp only [if_neg hdup]

theorem foldAddRel_ledgerFrame (pid : Nat) :
    ∀ (l : List Nat) (s : AppState),
      LedgerFrame s (l.foldl (fun s2 c => (addRelationship s2 pid c).1) s) := by
  intro l
  induction l with
  | nil => exact fun s => ledgerFrame_rfl s
  | cons c cs ih =>
    intro s
    simp only [List.foldl_cons]
    exact ledgerFrame_trans (addRel_ledgerFrame s pid c)
      (ih (addRelationship s pid c).1)

theorem foldAddRel_profiles (pid : Nat) :
    ∀ (l : List Nat) (s : AppState),
      (l.foldl (fun s2 c => (addRelationship s2 pid c).1) s).profiles =
        s.profiles := by
  intro l
  induction l with
  | nil => exact fun s => rfl
  | cons c cs ih =>
    intro s
    simp only [List.foldl_cons]
    exact (ih (addRelationship s pid c).1).trans (addRel_profiles s pid c)

theorem foldAddRel_parentInvites (pid : Nat) :
    ∀ (l : List Nat) (s : AppState),
      (l.foldl (fun s2 c => (addRelationship s2 pid c).1) s).parentInvites =
        s.parentInvites := by
  intro l
  induction l with
  | nil => exact fun s => rfl
  | cons c cs ih =>
    intro s
    simp only [List.foldl_cons]
    exact (ih (addRelationship s pid c).1).trans (addRel_parentInvites s pid c)

theorem inv_addRelationship {st : AppState} (parentId childId : Nat)
    (h : Inv st) : Inv (addRelationship st parentId childId).1 :=
  inv_of_ledgerFrame (addRel_ledgerFrame st parentId childId) h

theorem inv_removeRelationship {st : AppState} (parentId childId : Nat)
    (h : Inv st) : Inv (removeRelationship st parentId childId) :=
  @inv_frame st _ rfl rfl rfl le_rfl h

theorem inv_createOrUpdateRecurring {st : AppState} (accountId : Nat)
    (amount : Int) (dayOfMonth : Nat) (isActive : Bool) (h : Inv st) :
    Inv (createOrUpdateRecurringDeposit st accountId amount dayOfMonth isActive).1 := by
  unfold createOrUpdateRecurringDeposit
  by_cases h1 : amount ≤ 0
  · simp only [if_pos h1]; exact h
  · simp only [if_neg h1]
    by_cases h2 : dayOfMonth < 1 ∨ 31 < dayOfMonth
    · simp only [if_pos h2]; exact h
    · simp only [if_neg h2]
      rcases hf : st.accounts.find? (fun a => a.id == accountId) with _ | a <;>
        simp only [hf]
      · exact h
      · rcases hfr : st.recurs.find? (fun rd => rd.accountId == accountId)
          with _ | rd <;> simp only [hfr]
        · exact @inv_frame st _ rfl rfl rfl (Nat.le_succ _) h
        · exact @inv_frame st _ rfl rfl rfl le_rfl h

theorem inv_deleteRecurring {st : AppState} (accountId : Nat) (h : Inv st) :
    Inv (deleteRecurringDeposit st accountId) :=
  @inv_frame st _ rfl rfl rfl le_rfl h

theorem inv_createParentInvite {st : AppState} (childId inviterId : Nat)
    (email : String) (token expiresAt : Nat) (h : Inv st) :
    Inv (createParentInvite st childId inviterId email token expiresAt) :=
  @inv_frame st _ rfl rfl rfl (Nat.le_succ _) h

theorem inv_createChildInvite {st : AppState} (childId : Nat) (email : String)
    (token expiresAt : Nat) (h : Inv st) :
    Inv (createChildInvite st childId email token expiresAt) :=
  @inv_frame st _ rfl rfl rfl (Nat.le_succ _) h

theorem inv_acceptParentInvite {st : AppState} (now token currentParentId : Nat)
    (h : Inv st) : Inv (acceptParentInvite now st token currentParentId).1 := by
  unfold acceptParentInvite
  rcases hf : st.parentInvites.find? (fun i => i.token == token) with _ | inv <;>
    simp only [hf]
  · exact h
  · by_cases h1 : inv.status ≠ .pending
    · simp only [if_pos h1]; exact h
    · simp only [if_neg h1]
      by_cases h2 : inv.expiresAt ≤ now
      · simp only [if_pos h2]; exact h
      · simp only [if_neg h2]
        have hfr := foldAddRel_ledgerFrame currentParentId
          (childrenOf st inv.inviterId) st
        exact inv_frame hfr.1 hfr.2.1 hfr.2.2.1 hfr.2.2.2 h

theorem inv_acceptChildInvite {st : AppState} (now token authUserId : Nat)
    (h : Inv st) : Inv (acceptChildInvite now st token authUserId).1 := by
  unfold acceptChildInvite
  rcases hf : st.childInvites.find? (fun i => i.token == token) with _ | inv <;>
    simp only [hf]
  · exact h
  · by_cases h1 : inv.status ≠ .pending
    · simp only [if_pos h1]; exact h
    · simp only [if_neg h1]
      by_cases h2 : inv.expiresAt ≤ now
      · simp only [if_pos h2]; exact h
      · simp only [if_neg h2]
        exact @inv_frame st _ rfl rfl rfl le_rfl h

theorem inv_runRecurringOne {st : AppState} (today : Timestamp)
    (rd : RecurringDeposit) (h : Inv st) : Inv (runRecurringOne today st rd) := by
  unfold runRecurringOne
  by_cases h1 : (rd.isActive &&
      today.day == runDay rd.dayOfMonth today.year today.month) = true
  · simp only [if_pos h1]
    by_cases h2 : hasSuccessFor st.execs rd.id today.year today.month = true
    · simp only [if_pos h2]; exact h
    · simp only [if_neg h2]
      rcases hdep : deposit st rd.accountId rd.amount "定期入金" with ⟨st2, res⟩
      have hinv2 : Inv st2 := by
        have := inv_deposit rd.accountId rd.amount "定期入金" h
        rw [hdep] at this
        exact this
      rcases res with e | t <;> simp only [hdep]
      · exact @inv_frame st _ rfl rfl rfl (Nat.le_succ _) h
      · exact @inv_frame st2 _ rfl rfl rfl (Nat.le_succ _) hinv2
  · simp only [if_neg h1]; exact h

theorem inv_foldl {α : Type} {f : AppState → α → AppState}
    (hf : ∀ s a, Inv s → Inv (f s a)) :
    ∀ (l : List α) (s : AppState), Inv s → Inv (l.foldl f s) := by
  intro l
  induction l with
  | nil => exact fun s hs => hs
  | cons a as ih =>
    intro s hs
    simp only [List.foldl_cons]
    exact ih _ (hf s a hs)

theorem inv_runRecurringBatch {st : AppState} (today : Timestamp) (h : Inv st) :
    Inv (runRecurringBatch today st) :=
  inv_foldl (fun _ rd hs => inv_runRecurringOne today rd hs) st.recurs st h

theorem inv_step {st st2 : AppState} (h : Inv st) (hs : Step st st2) : Inv st2 := by
  cases hs with
  | ofHandleNewUser st u newId => exact inv_handleNewUser u newId h
  | ofCreateAccount st userId => exact inv_createAccount userId h
  | ofDeposit st accountId amount d => exact inv_deposit accountId amount d h
  | ofWithdraw st accountId amount d => exact inv_withdraw accountId amount d h
  | ofReward st accountId amount d => exact inv_reward accountId amount d h
  | ofCreateRequest st accountId amount d => exact inv_createRequest accountId amount d h
  | ofApprove st reqId => exact inv_approve reqId h
  | ofReject st reqId => exact inv_reject reqId h
  | ofCreateOrUpdateRecurring st accountId amount dayOfMonth isActive =>
    exact inv_createOrUpdateRecurring accountId amount dayOfMonth isActive h
  | ofDeleteRecurring st accountId => exact inv_deleteRecurring accountId h
  | ofRunRecurringBatch st today => exact inv_runRecurringBatch today h
  | ofCreateParentInvite st childId inviterId email token expiresAt =>
    exact inv_createParentInvite childId inviterId email token expiresAt h
  | ofCreateChildInvite st childId email token expiresAt =>
    exact inv_createChildInvite childId email token expiresAt h
  | ofAcceptParentInvite now st token currentParentId =>
    exact inv_acceptParentInvite now token currentParentId h
  | ofAcceptChildInvite now st token authUserId =>
    exact inv_acceptChildInvite now token authUserId h
  | ofAddRelationship st parentId childId => exact inv_addRelationship parentId childId h
  | ofRemoveRelationship st parentId childId => exact inv_removeRelationship parentId childId h

theorem reachable_inv {st : AppState} (h : Reachable st) : Inv st := by
  induction h with
  | init => exact inv_initState
  | step hr hs ih => exact inv_step ih hs

/-- C1: for every account, at every observable point in time (any store
state reachable by the modelled operations), the cached `Account.balance`
equals Σ(deposit+reward amounts) − Σ(withdraw amounts) over that
account's transaction rows. -/
theorem c1_balance_equals_ledger_sum {st : AppState} (h : Reachable st) :
    ∀ a ∈ st.accounts, a.balance = txSum a.id st.txs :=
  (reachable_inv h).ledger

/-- A concrete observable point shared by several witnesses: create an
account, deposit 100, withdraw 40. -/
def demoState : AppState :=
  (withdraw (deposit (createAccount initState 7) 1 100 "お小遣い").1 1 40 "おやつ").1

theorem demoState_reachable : Reachable demoState :=
  Reachable.step
    (Reachable.step
      (Reachable.step Reachable.init (Step.ofCreateAccount initState 7))
      (Step.ofDeposit (createAccount initState 7) 1 100 "お小遣い"))
    (Step.ofWithdraw (deposit (createAccount initState 7) 1 100 "お小遣い").1 1 40 "おやつ")

theorem c1_balance_equals_ledger_sum_witness :
    ({ id := 1, userId := 7, balance := 60, currency := "JPY",
       goalName := none, goalAmount := none } : Account).balance =
      txSum 1 demoState.txs :=
  c1_balance_equals_ledger_sum demoState_reachable
    { id := 1, userId := 7, balance := 60, currency := "JPY"
      goalName := none, goalAmount := none } (by decide)

theorem handleNewUser_txs (st : AppState) (u : NewAuthUser) (newId : Nat) :
    (handleNewUser st u newId).txs = st.txs := by
  unfold handleNewUser
  split <;> rfl

theorem deposit_txs (st : AppState) (a : Nat) (m : Int) (d : String) :
    ∃ ts, (deposit st a m d).1.txs = st.txs ++ ts := by
  unfold deposit
  split
  · exact ⟨[], by simp⟩
  · split
    · exact ⟨[], by simp⟩
    · exact ⟨_, rfl⟩

theorem withdraw_txs (st : AppState) (a : Nat) (m : Int) (d : String) :
    ∃ ts, (withdraw st a m d).1.txs = st.txs ++ ts := by
  unfold withdraw
  split
  · exact ⟨[], by simp⟩
  · split
    · exact ⟨[], by simp⟩
    · split
      · exact ⟨[], by simp⟩
      · exact ⟨_, rfl⟩

theorem reward_txs (st : AppState) (a : Nat) (m : Int) (d : String) :
    ∃ ts, (reward st a m d).1.txs = st.txs ++ ts := by
  unfold reward
  split
  · exact ⟨[], by simp⟩
  · split
    · exact ⟨[], by simp⟩
    · exact ⟨_, rfl⟩

theorem createRequest_txs (st : AppState) (a : Nat) (m : Int) (d : String) :
    (createWithdrawalRequest st a m d).1.txs = st.txs := by
  unfold createWithdrawalRequest
  split
  · rfl
  · split
    · rfl
    · split <;> rfl

theorem approve_txs (st : AppState) (reqId : Nat) :
    ∃ ts, (approveWithdrawalRequest st reqId).1.txs = st.txs ++ ts := by
  unfold approveWithdrawalRequest
  split
  · exact ⟨[], by simp⟩
  · split
    · exact ⟨[], by simp⟩
    · split
      · exact ⟨[], by simp⟩
      · split
        · exact ⟨[], by simp⟩
        · exact ⟨_, rfl⟩

theorem reject_txs (st : AppState) (reqId : Nat) :
    (rejectWithdrawalRequest st reqId).1.txs = st.txs := by
  unfold rejectWithdrawalRequest
  split
  · rfl
  · split <;> rfl

theorem createOrUpdateRecurring_txs (st : AppState) (a : Nat) (m : Int)
    (day : Nat) (act : Bool) :
    (createOrUpdateRecurringDeposit st a m day act).1.txs = st.txs := by
  unfold createOrUpdateRecurringDeposit
  split
  · rfl
  · split
    · rfl
    · split
      · rfl
      · split <;> rfl

theorem runRecurringOne_txs (today : Timestamp) (st : AppState)
    (rd : RecurringDeposit) :
    ∃ ts, (runRecurringOne today st rd).txs = st.txs ++ ts := by
  unfold runRecurringOne
  split
  · split
    · exact ⟨[], by simp⟩
    · rcases hdep : deposit st rd.accountId rd.amount "定期入金" with ⟨st2, res⟩
      have hts := deposit_txs st rd.accountId rd.amount "定期入金"
      rw [hdep] at hts
      rcases res with e | t <;> simp only [hdep]
      · exact ⟨[], by simp⟩
      · rcases hts with ⟨ts, hts⟩
        exact ⟨ts, hts⟩
  · exact ⟨[], by simp⟩

theorem runRecurringBatch_txs (today : Timestamp) (st : AppState) :
    ∃ ts, (runRecurringBatch today st).txs = st.txs ++ ts := by
  unfold runRecurringBatch
  generalize st.recurs = l
  induction l generalizing st with
  | nil => exact ⟨[], by simp⟩
  | cons rd rds ih =>
    simp only [List.foldl_cons]
    rcases ih (runRecurringOne today st rd) with ⟨ts2, h2⟩
    rcases runRecurringOne_txs today st rd with ⟨ts1, h1⟩
    exact ⟨ts1 ++ ts2, by rw [h2, h1, List.append_assoc]⟩

theorem acceptParentInvite_txs (now : Nat) (st : AppState) (token pid : Nat) :
    (acceptParentInvite now st token pid).1.txs = st.txs := by
  unfold acceptParentInvite
  split
  · rfl
  · split
    · rfl
    · split
      · rfl
      · exact (foldAddRel_ledgerFrame pid (childrenOf st _) st).2.1

theorem acceptChildInvite_txs (now : Nat) (st : AppState) (token uid : Nat) :
    (acceptChildInvite now st token uid).1.txs = st.txs := by
  unfold acceptChildInvite
  split
  · rfl
  · split
    · rfl
    · split <;> rfl

theorem step_txs {st st2 : AppState} (hs : Step st st2) :
    ∃ ts, st2.txs = st.txs ++ ts := by
  cases hs with
  | ofHandleNewUser st u newId => exact ⟨[], by simp [handleNewUser_txs]⟩
  | ofCreateAccount st userId => exact ⟨[], by simp [createAccount]⟩
  | ofDeposit st accountId amount d => exact deposit_txs st accountId amount d
  | ofWithdraw st accountId amount d => exact withdraw_txs st accountId amount d
  | ofReward st accountId amount d => exact reward_txs st accountId amount d
  | ofCreateRequest st accountId amount d =>
    exact ⟨[], by simp [createRequest_txs]⟩
  | ofApprove st reqId => exact approve_txs st reqId
  | ofReject st reqId => exact ⟨[], by simp [reject_txs]⟩
  | ofCreateOrUpdateRecurring st accountId amount dayOfMonth isActive =>
    exact ⟨[], by simp [createOrUpdateRecurring_txs]⟩
  | ofDeleteRecurring st accountId => exact ⟨[], by simp [deleteRecurringDeposit]⟩
  | ofRunRecurringBatch st today => exact runRecurringBatch_txs today st
  | ofCreateParentInvite st childId inviterId email token expiresAt =>
    exact ⟨[], by simp [createParentInvite]⟩
  | ofCreateChildInvite st childId email token expiresAt =>
    exact ⟨[], by simp [createChildInvite]⟩
  | ofAcceptParentInvite now st token currentParentId =>
    exact ⟨[], by simp [acceptParentInvite_txs]⟩
  | ofAcceptChildInvite now st token authUserId =>
    exact ⟨[], by simp [acceptChildInvite_txs]⟩
  | ofAddRelationship st parentId childId =>
    exact ⟨[], by simp [(addRel_ledgerFrame st parentId childId).2.1]⟩
  | ofRemoveRelationship st parentId childId =>
    exact ⟨[], by simp [removeRelationship]⟩

/-- How the `withdrawal_requests` table may evolve in one step: a row is
either an old row, or freshly created `pending` under an id no old row
has, or obtained from an old `pending` row by one terminal transition to
`approved` or `rejected`.  The fresh-id condition on the `pending`
disjunct excludes reverting an existing `approved` or `rejected` row back
to `pending`: forward-only transitions. -/
def reqEvolveOk (old new : List WithdrawalRequest) : Prop :=
  ∀ r ∈ new, r ∈ old ∨
    (r.status = ReqStatus.pending ∧ ∀ q ∈ old, r.id ≠ q.id) ∨
    ∃ q ∈ old, q.status = ReqStatus.pending ∧
      (r = { q with status := ReqStatus.approved } ∨
        r = { q with status := ReqStatus.rejected })

theorem reqEvolveOk_of_eq {old new : List WithdrawalRequest} (h : new = old) :
    reqEvolveOk old new :=
  fun _ hr => Or.inl (h ▸ hr)

theorem handleNewUser_requests (st : AppState) (u : NewAuthUser) (newId : Nat) :
    (handleNewUser st u newId).requests = st.requests := by
  unfold handleNewUser
  split <;> rfl

theorem deposit_requests (st : AppState) (a : Nat) (m : Int) (d : String) :
    (deposit st a m d).1.requests = st.requests := by
  unfold deposit
  split
  · rfl
  · split <;> rfl

theorem withdraw_requests (st : AppState) (a : Nat) (m : Int) (d : String) :
    (withdraw st a m d).1.requests = st.requests := by
  unfold withdraw
  split
  · rfl
  · split
    · rfl
    · split <;> rfl

theorem reward_requests (st : AppState) (a : Nat) (m : Int) (d : String) :
    (reward st a m d).1.requests = st.requests := by
  unfold reward
  split
  · rfl
  · split <;> rfl

theorem createRequest_reqEvolve {st : AppState} (a : Nat) (m : Int)
    (d : String) (h : Inv st) :
    reqEvolveOk st.requests (createWithdrawalRequest st a m d).1.requests := by
  unfold createWithdrawalRequest
  split
  · exact reqEvolveOk_of_eq rfl
  · split
    · exact reqEvolveOk_of_eq rfl
    · split
      · exact reqEvolveOk_of_eq rfl
      · intro r hr
        rcases List.mem_append.mp hr with hr | hr
        · exact Or.inl hr
        · simp only [List.mem_singleton] at hr
          subst hr
          exact Or.inr (Or.inl ⟨rfl,
            fun q hq => (Nat.ne_of_lt (h.reqFresh q hq)).symm⟩)

theorem approve_reqEvolve {st : AppState} (reqId : Nat) (h : Inv st) :
    reqEvolveOk st.requests (approveWithdrawalRequest st reqId).1.requests := by
  unfold approveWithdrawalRequest
  rcases hfr : st.requests.find? (fun r => r.id == reqId) with _ | r0 <;>
    simp only [hfr]
  · exact reqEvolveOk_of_eq rfl
  · by_cases hst : r0.status ≠ .pending
    · simp only [if_pos hst]; exact reqEvolveOk_of_eq rfl
    · simp only [if_neg hst]
      rcases hfa : st.accounts.find? (fun a => a.id == r0.accountId) with _ | a <;>
        simp only [hfa]
      · exact reqEvolveOk_of_eq rfl
      · by_cases hbal : a.balance < r0.amount
        · simp only [if_pos hbal]; exact reqEvolveOk_of_eq rfl
        · simp only [if_neg hbal]
          intro r hr
          rcases List.mem_map.mp hr with ⟨q, hq, rfl⟩
          split
          next heq =>
            have hqid : q.id = reqId := by simpa using heq
            have hr0id : r0.id = reqId := by
              simpa using List.find?_some hfr
            have hq_eq : q = r0 :=
              h.reqInj q hq r0 (List.mem_of_find?_eq_some hfr)
                (by rw [hqid, hr0id])
            refine Or.inr (Or.inr ⟨q, hq, ?_, Or.inl rfl⟩)
            rw [hq_eq]
            exact not_not.mp hst
          next heq => exact Or.inl hq

theorem reject_reqEvolve {st : AppState} (reqId : Nat) (h : Inv st) :
    reqEvolveOk st.requests (rejectWithdrawalRequest st reqId).1.requests := by
  unfold rejectWithdrawalRequest
  rcases hfr : st.requests.find? (fun r => r.id == reqId) with _ | r0 <;>
    simp only [hfr]
  · exact reqEvolveOk_of_eq rfl
  · by_cases hst : r0.status ≠ .pending
    · simp only [if_pos hst]; exact reqEvolveOk_of_eq rfl
    · simp only [if_neg hst]
      intro r hr
      rcases List.mem_map.mp hr with ⟨q, hq, rfl⟩
      split
      next heq =>
        have hqid : q.id = reqId := by simpa using heq
        have hr0id : r0.id = reqId := by
          simpa using List.find?_some hfr
        have hq_eq : q = r0 :=
          h.reqInj q hq r0 (List.mem_of_find?_eq_some hfr) (by rw [hqid, hr0id])
        refine Or.inr (Or.inr ⟨q, hq, ?_, Or.inr rfl⟩)
        rw [hq_eq]
        exact not_not.mp hst
      next heq => exact Or.inl hq

theorem createOrUpdateRecurring_requests (st : AppState) (a : Nat) (m : Int)
    (day : Nat) (act : Bool) :
    (createOrUpdateRecurringDeposit st a m day act).1.requests = st.requests := by
  unfold createOrUpdateRecurringDeposit
  split
  · rfl
  · split
    · rfl
    · split
      · rfl
      · split <;> rfl

theorem runRecurringOne_requests (today : Timestamp) (st : AppState)
    (rd : RecurringDeposit) :
    (runRecurringOne today st rd).requests = st.requests := by
  unfold runRecurringOne
  split
  · split
    · rfl
    · rcases hdep : deposit st rd.accountId rd.amount "定期入金" with ⟨st2, res⟩
      have hrq := deposit_requests st rd.accountId rd.amount "定期入金"
      rw [hdep] at hrq
      rcases res with e | t <;> simp only [hdep] <;>
        first
        | rfl
        | exact hrq
  · rfl

theorem runRecurringBatch_requests (today : Timestamp) (st : AppState) :
    (runRecurringBatch today st).requests = st.requests := by
  unfold runRecurringBatch
  generalize st.recurs = l
  induction l generalizing st with
  | nil => rfl
  | cons rd rds ih =>
    simp only [List.foldl_cons]
    exact (ih (runRecurringOne today st rd)).trans
      (runRecurringOne_requests today st rd)

theorem acceptParentInvite_requests (now : Nat) (st : AppState) (token pid : Nat) :
    (acceptParentInvite now st token pid).1.requests = st.requests := by
  unfold acceptParentInvite
  split
  · rfl
  · split
    · rfl
    · split
      · rfl
      · exact (foldAddRel_ledgerFrame pid (childrenOf st _) st).2.2.1

theorem acceptChildInvite_requests (now : Nat) (st : AppState) (token uid : Nat) :
    (acceptChildInvite now st token uid).1.requests = st.requests := by
  unfold acceptChildInvite
  split
  · rfl
  · split
    · rfl
    · split <;> rfl

theorem step_reqEvolve {st st2 : AppState} (h : Inv st) (hs : Step st st2) :
    reqEvolveOk st.requests st2.requests := by
  cases hs with
  | ofHandleNewUser st u newId =>
    exact reqEvolveOk_of_eq (handleNewUser_requests st u newId)
  | ofCreateAccount st userId => exact reqEvolveOk_of_eq rfl
  | ofDeposit st accountId amount d =>
    exact reqEvolveOk_of_eq (deposit_requests st accountId amount d)
  | ofWithdraw st accountId amount d =>
    exact reqEvolveOk_of_eq (withdraw_requests st accountId amount d)
  | ofReward st accountId amount d =>
    exact reqEvolveOk_of_eq (reward_requests st accountId amount d)
  | ofCreateRequest st accountId amount d =>
    exact createRequest_reqEvolve accountId amount d h
  | ofApprove st reqId => exact approve_reqEvolve reqId h
  | ofReject st reqId => exact reject_reqEvolve reqId h
  | ofCreateOrUpdateRecurring st accountId amount dayOfMonth isActive =>
    exact reqEvolveOk_of_eq
      (createOrUpdateRecurring_requests st accountId amount dayOfMonth isActive)
  | ofDeleteRecurring st accountId => exact reqEvolveOk_of_eq rfl
  | ofRunRecurringBatch st today =>
    exact reqEvolveOk_of_eq (runRecurringBatch_requests today st)
  | ofCreateParentInvite st childId inviterId email token expiresAt =>
    exact reqEvolveOk_of_eq rfl
  | ofCreateChildInvite st childId email token expiresAt =>
    exact reqEvolveOk_of_eq rfl
  | ofAcceptParentInvite now st token currentParentId =>
    exact reqEvolveOk_of_eq (acceptParentInvite_requests now st token currentParentId)
  | ofAcceptChildInvite now st token authUserId =>
    exact reqEvolveOk_of_eq (acceptChildInvite_requests now st token authUserId)
  | ofAddRelationship st parentId childId =>
    exact reqEvolveOk_of_eq (addRel_ledgerFrame st parentId childId).2.2.1
  | ofRemoveRelationship st parentId childId => exact reqEvolveOk_of_eq rfl

/-- The `UNIQUE(parent_id, child_id)` constraint of
06_family_relationships.sql: no two rows share the same pair. -/
def relsPairUnique (l : List FamilyRelationship) : Prop :=
  l.Pairwise fun r1 r2 => ¬ (r1.parentId = r2.parentId ∧ r1.childId = r2.childId)

theorem addRel_relsUniq {s : AppState} (p c : Nat)
    (h : relsPairUnique s.rels) :
    relsPairUnique (addRelationship s p c).1.rels := by
  unfold addRelationship
  rcases hf : s.profiles.find? (fun q => q.id == p) with _ | p0 <;> simp only [hf]
  · exact h
  · by_cases hrole : p0.role ≠ "parent"
    · simp only [if_pos hrole]; exact h
    · simp only [if_neg hrole]
      by_cases hdup : (s.rels.any fun r => r.parentId == p && r.childId == c) = true
      · simp only [if_pos hdup]; exact h
      · simp only [if_neg hdup]
        refine List.pairwise_append.mpr ⟨h, List.pairwise_singleton _ _, ?_⟩
        intro r1 hr1 r2 hr2
        simp only [List.mem_singleton] at hr2
        subst hr2
        intro hcontra
        have := (List.any_eq_false.mp (Bool.eq_false_iff.mpr hdup)) r1 hr1
        simp only [Bool.and_eq_true, beq_iff_eq] at this
        exact this ⟨hcontra.1, hcontra.2⟩

theorem foldAddRel_relsUniq (pid : Nat) :
    ∀ (l : List Nat) (s : AppState), relsPairUnique s.rels →
      relsPairUnique ((l.foldl (fun s2 c => (addRelationship s2 pid c).1) s).rels) := by
  intro l
  induction l with
  | nil => exact fun s hs => hs
  | cons c cs ih =>
    intro s hs
    simp only [List.foldl_cons]
    exact ih _ (addRel_relsUniq pid c hs)

theorem handleNewUser_rels (st : AppState) (u : NewAuthUser) (newId : Nat) :
    (handleNewUser st u newId).rels = st.rels := by
  unfold handleNewUser
  split <;> rfl

theorem deposit_rels (st : AppState) (a : Nat) (m : Int) (d : String) :
    (deposit st a m d).1.rels = st.rels := by
  unfold deposit
  split
  · rfl
  · split <;> rfl

theorem withdraw_rels (st : AppState) (a : Nat) (m : Int) (d : String) :
    (withdraw st a m d).1.rels = st.rels := by
  unfold withdraw
  split
  · rfl
  · split
    · rfl
    · split <;> rfl

theorem reward_rels (st : AppState) (a : Nat) (m : Int) (d : String) :
    (reward st a m d).1.rels = st.rels := by
  unfold reward
  split
  · rfl
  · split <;> rfl

theorem createRequest_rels (st : AppState) (a : Nat) (m : Int) (d : String) :
    (createWithdrawalRequest st a m d).1.rels = st.rels := by
  unfold createWithdrawalRequest
  split
  · rfl
  · split
    · rfl
    · split <;> rfl

theorem approve_rels (st : AppState) (reqId : Nat) :
    (approveWithdrawalRequest st reqId).1.rels = st.rels := by
  unfold approveWithdrawalRequest
  split
  · rfl
  · split
    · rfl
    · split
      · rfl
      · split <;> rfl

theorem reject_rels (st : AppState) (reqId : Nat) :
    (rejectWithdrawalRequest st reqId).1.rels = st.rels := by
  unfold rejectWithdrawalRequest
  split
  · rfl
  · split <;> rfl

theorem createOrUpdateRecurring_rels (st : AppState) (a : Nat) (m : Int)
    (day : Nat) (act : Bool) :
    (createOrUpdateRecurringDeposit st a m day act).1.rels = st.rels := by
  unfold createOrUpdateRecurringDeposit
  split
  · rfl
  · split
    · rfl
    · split
      · rfl
      · split <;> rfl

theorem runRecurringOne_rels (today : Timestamp) (st : AppState)
    (rd : RecurringDeposit) :
    (runRecurringOne today st rd).rels = st.rels := by
  unfold runRecurringOne
  split
  · split
    · rfl
    · rcases hdep : deposit st rd.accountId rd.amount "定期入金" with ⟨st2, res⟩
      have hr := deposit_rels st rd.accountId rd.amount "定期入金"
      rw [hdep] at hr
      rcases res with e | t <;> simp only [hdep] <;>
        first
        | rfl
        | exact hr
  · rfl

theorem runRecurringBatch_rels (today : Timestamp) (st : AppState) :
    (runRecurringBatch today st).rels = st.rels := by
  unfold runRecurringBatch
  generalize st.recurs = l
  induction l generalizing st with
  | nil => rfl
  | cons rd rds ih =>
    simp only [List.foldl_cons]
    exact (ih (runRecurringOne today st rd)).trans
      (runRecurringOne_rels today st rd)

theorem acceptChildInvite_rels (now : Nat) (st : AppState) (token uid : Nat) :
    (acceptChildInvite now st token uid).1.rels = st.rels := by
  unfold acceptChildInvite
  split
  · rfl
  · split
    · rfl
    · split <;> rfl

theorem acceptParentInvite_relsUniq (now : Nat) {st : AppState}
    (token pid : Nat) (h : relsPairUnique st.rels) :
    relsPairUnique (acceptParentInvite now st token pid).1.rels := by
  unfold acceptParentInvite
  split
  · exact h
  · split
    · exact h
    · split
      · exact h
      · exact foldAddRel_relsUniq pid (childrenOf st _) st h

theorem step_relsUniq {st st2 : AppState} (h : relsPairUnique st.rels)
    (hs : Step st st2) : relsPairUnique st2.rels := by
  cases hs with
  | ofHandleNewUser st u newId => exact (handleNewUser_rels st u newId) ▸ h
  | ofCreateAccount st userId => exact h
  | ofDeposit st accountId amount d => exact (deposit_rels st accountId amount d) ▸ h
  | ofWithdraw st accountId amount d => exact (withdraw_rels st accountId amount d) ▸ h
  | ofReward st accountId amount d => exact (reward_rels st accountId amount d) ▸ h
  | ofCreateRequest st accountId amount d =>
    exact (createRequest_rels st accountId amount d) ▸ h
  | ofApprove st reqId => exact (approve_rels st reqId) ▸ h
  | ofReject st reqId => exact (reject_rels st reqId) ▸ h
  | ofCreateOrUpdateRecurring st accountId amount dayOfMonth isActive =>
    exact (createOrUpdateRecurring_rels st accountId amount dayOfMonth isActive) ▸ h
  | ofDeleteRecurring st accountId => exact h
  | ofRunRecurringBatch st today => exact (runRecurringBatch_rels today st) ▸ h
  | ofCreateParentInvite st childId inviterId email token expiresAt => exact h
  | ofCreateChildInvite st childId email token expiresAt => exact h
  | ofAcceptParentInvite now st token currentParentId =>
    exact acceptParentInvite_relsUniq now token currentParentId h
  | ofAcceptChildInvite now st token authUserId =>
    exact (acceptChildInvite_rels now st token authUserId) ▸ h
  | ofAddRelationship st parentId childId => exact addRel_relsUniq parentId childId h
  | ofRemoveRelationship st parentId childId =>
    exact List.Pairwise.sublist (List.filter_sublist st.rels) h

theorem relsUniq_reachable {st : AppState} (h : Reachable st) :
    relsPairUnique st.rels := by
  induction h with
  | init => exact List.Pairwise.nil
  | step hr hs ih => exact step_relsUniq ih hs

/-- C3: for a `withdraw(accountId, amount, description)` call with
positive `amount` on an existing account: when `amount` exceeds the
current balance the call fails `InsufficientFunds` and returns the store
unchanged (balance and transaction log untouched); when `amount` is at
most the balance it returns exactly one new `withdraw` Transaction row
appended to the log and the account's balance decremented by `amount`. -/
theorem c3_withdraw_insufficient_or_decrement (st : AppState)
    (accountId : Nat) (amount : Int) (d : String) (a : Account)
    (hf : st.accounts.find? (fun b => b.id == accountId) = some a)
    (hpos : 0 < amount) :
    (a.balance < amount →
      withdraw st accountId amount d = (st, Except.error OpError.insufficientFunds)) ∧
    (amount ≤ a.balance →
      ∃ t : Transaction,
        withdraw st accountId amount d =
          ({ st with
              accounts := adjustBalance st.accounts accountId (· - amount)
              txs := st.txs ++ [t]
              nextId := st.nextId + 1 }, Except.ok t) ∧
        t.type = TxType.withdraw ∧ t.amount = amount ∧
        t.accountId = accountId ∧
        (withdraw st accountId amount d).1.accounts.find?
            (fun b => b.id == accountId) =
          some { a with balance := a.balance - amount }) := by
  have hnle : ¬ amount ≤ 0 := not_le.mpr hpos
  constructor
  · intro hlt
    unfold withdraw
    simp only [if_neg hnle, hf, if_pos hlt]
  · intro hle
    have hnlt : ¬ a.balance < amount := not_lt.mpr hle
    unfold withdraw
    simp only [if_neg hnle, hf, if_neg hnlt]
    exact ⟨_, rfl, rfl, rfl, rfl, find?_adjustBalance _ hf⟩

/-- A store with a single account holding balance 400, as in the spec's
test property (after its first withdrawal). -/
def c3Account : Account :=
  { id := 1, userId := 2, balance := 400, currency := "JPY"
    goalName := none, goalAmount := none }

def c3State : AppState :=
  { profiles := [], accounts := [c3Account]
    txs := [], requests := [], recurs := [], execs := [], parentInvites := []
    childInvites := [], rels := [], nextId := 5 }

theorem c3_withdraw_insufficient_or_decrement_witness :
    withdraw c3State 1 600 "買い物" = (c3State, Except.error OpError.insufficientFunds) ∧
    (withdraw c3State 1 300 "買い物").1.accounts.find? (fun b => b.id == 1) =
      some { id := 1, userId := 2, balance := 100, currency := "JPY", goalName := none, goalAmount := none } := by
  constructor
  · exact (c3_withdraw_insufficient_or_decrement c3State 1 600 "買い物" c3Account
      (by rfl) (by decide)).1 (by decide)
  · rcases (c3_withdraw_insufficient_or_decrement c3State 1 300 "買い物" c3Account
      (by rfl) (by decide)).2 (by decide) with ⟨t, heq, h1, h2, h3, h4⟩
    exact h4

/-- C5: in any one step from an observable state, a withdrawal-request row
either stays, is created `pending` under a fresh id, or moves from
`pending` to `approved` or `rejected` — no other status transition
exists; `approved` and `rejected` are terminal — after any step, a row
carrying the id of a non-pending row is that row, unchanged; and calling
approve or reject on a non-pending request fails `Conflict` and returns
the store unchanged. -/
theorem c5_request_state_machine (st st2 : AppState) (reqId : Nat) :
    (Reachable st → Step st st2 →
      ∀ r ∈ st2.requests, r ∈ st.requests ∨
        (r.status = ReqStatus.pending ∧ ∀ q ∈ st.requests, r.id ≠ q.id) ∨
        ∃ q ∈ st.requests, q.status = ReqStatus.pending ∧
          (r = { q with status := ReqStatus.approved } ∨
            r = { q with status := ReqStatus.rejected })) ∧
    (Reachable st → Step st st2 →
      ∀ q ∈ st.requests, q.status ≠ ReqStatus.pending →
      ∀ r ∈ st2.requests, r.id = q.id → r = q) ∧
    (∀ r, st.requests.find? (fun q => q.id == reqId) = some r →
      r.status ≠ ReqStatus.pending →
      approveWithdrawalRequest st reqId = (st, Except.error OpError.conflict) ∧
      rejectWithdrawalRequest st reqId = (st, Except.error OpError.conflict)) := by
  refine ⟨?_, ?_, ?_⟩
  · intro hre hs
    exact step_reqEvolve (reachable_inv hre) hs
  · intro hre hs q hq hnp r hr hid
    have hinv := reachable_inv hre
    rcases step_reqEvolve hinv hs r hr with hold | ⟨hpend, hfresh⟩ |
      ⟨q2, hq2, hq2p, hcase⟩
    · exact hinv.reqInj r hold q hq hid
    · exact absurd hid (hfresh q hq)
    · have hid2 : r.id = q2.id := by rcases hcase with rfl | rfl <;> rfl
      have heq : q2 = q := hinv.reqInj q2 hq2 q hq (hid2.symm.trans hid)
      rw [heq] at hq2p
      exact absurd hq2p hnp
  · intro r hfr hnp
    constructor
    · unfold approveWithdrawalRequest
      simp only [hfr, if_pos hnp]
    · unfold rejectWithdrawalRequest
      simp only [hfr, if_pos hnp]

def c5Request : WithdrawalRequest :=
  { id := 1, accountId := 1, amount := 100, description := "おもちゃ"
    status := ReqStatus.approved }

def c5State : AppState :=
  { profiles := [], accounts := [c3Account], txs := [], requests := [c5Request]
    recurs := [], execs := [], parentInvites := [], childInvites := []
    rels := [], nextId := 9 }

def c5NewRequest : WithdrawalRequest :=
  { id := 4, accountId := 1, amount := 50, description := "ゲーム"
    status := ReqStatus.pending }

/-- A reachable store whose request 4 has been approved: the demo store
after creating a request for 50 and approving it. -/
def c5Stage : AppState :=
  (approveWithdrawalRequest (createWithdrawalRequest demoState 1 50 "ゲーム").1 4).1

theorem c5Stage_reachable : Reachable c5Stage :=
  Reachable.step
    (Reachable.step demoState_reachable
      (Step.ofCreateRequest demoState 1 50 "ゲーム"))
    (Step.ofApprove (createWithdrawalRequest demoState 1 50 "ゲーム").1 4)

def c5ApprovedRequest : WithdrawalRequest :=
  { id := 4, accountId := 1, amount := 50, description := "ゲーム"
    status := ReqStatus.approved }

theorem c5_request_state_machine_witness :
    (c5NewRequest ∈ demoState.requests ∨
      (c5NewRequest.status = ReqStatus.pending ∧
        ∀ q ∈ demoState.requests, c5NewRequest.id ≠ q.id) ∨
      ∃ q ∈ demoState.requests, q.status = ReqStatus.pending ∧
        (c5NewRequest = { q with status := ReqStatus.approved } ∨
          c5NewRequest = { q with status := ReqStatus.rejected })) ∧
    c5ApprovedRequest = c5ApprovedRequest ∧
    approveWithdrawalRequest c5State 1 = (c5State, Except.error OpError.conflict) ∧
    rejectWithdrawalRequest c5State 1 = (c5State, Except.error OpError.conflict) := by
  refine ⟨?_, ?_, ?_⟩
  · exact (c5_request_state_machine demoState
      (createWithdrawalRequest demoState 1 50 "ゲーム").1 0).1
      demoState_reachable (Step.ofCreateRequest demoState 1 50 "ゲーム")
      c5NewRequest (by decide)
  · exact (c5_request_state_machine c5Stage
      (rejectWithdrawalRequest c5Stage 4).1 4).2.1
      c5Stage_reachable (Step.ofReject c5Stage 4)
      c5ApprovedRequest (by decide) (by decide)
      c5ApprovedRequest (by decide) rfl
  · exact (c5_request_state_machine c5State c5State 1).2.2 c5Request (by rfl) (by decide)

/-- C9: `addRelationship(parentId, childId)` requires the inserting
profile's role to be `parent` (failing `Unauthorized` otherwise, as the
RLS INSERT policy demands), is idempotent — inserting an existing
`(parentId, childId)` pair is a no-op returning success, not an error —
and the `family_relationships` table never holds two rows with the same
`(parentId, childId)` pair: the uniqueness holds at every reachable state
and is preserved by the insert. -/
theorem c9_add_relationship (st : AppState) (parentId childId : Nat) :
    (∀ p, st.profiles.find? (fun q => q.id == parentId) = some p →
      p.role ≠ "parent" →
      addRelationship st parentId childId = (st, Except.error OpError.unauthorized)) ∧
    (∀ p, st.profiles.find? (fun q => q.id == parentId) = some p →
      p.role = "parent" →
      (∃ r ∈ st.rels, r.parentId = parentId ∧ r.childId = childId) →
      addRelationship st parentId childId = (st, Except.ok ())) ∧
    (Reachable st → relsPairUnique st.rels) ∧
    (relsPairUnique st.rels →
      relsPairUnique (addRelationship st parentId childId).1.rels) := by
  refine ⟨?_, ?_, ?_, ?_⟩
  · intro p hp hrole
    unfold addRelationship
    simp only [hp, if_pos hrole]
  · intro p hp hrole hdup
    unfold addRelationship
    rcases hdup with ⟨r, hr, h1, h2⟩
    have hany : (st.rels.any fun r => r.parentId == parentId && r.childId == childId) = true :=
      List.any_eq_true.mpr ⟨r, hr, by simp [h1, h2]⟩
    simp only [hp, if_neg (not_not.mpr hrole), if_pos hany]
  · exact relsUniq_reachable
  · exact addRel_relsUniq parentId childId

def c9Parent : Profile :=
  { id := 3, authUserId := some 30, name := "母", role := "parent", email := none }

def c9Child : Profile :=
  { id := 5, authUserId := none, name := "子", role := "child"
    email := some "kodomo@example.com" }

def c9State : AppState :=
  { profiles := [c9Parent, c9Child], accounts := [], txs := [], requests := []
    recurs := [], execs := [], parentInvites := [], childInvites := []
    rels := [{ id := 1, parentId := 3, childId := 10 }], nextId := 20 }

theorem c9_add_relationship_witness :
    addRelationship c9State 5 10 = (c9State, Except.error OpError.unauthorized) ∧
    addRelationship c9State 3 10 = (c9State, Except.ok ()) ∧
    relsPairUnique demoState.rels ∧
    relsPairUnique (addRelationship c9State 3 11).1.rels := by
  refine ⟨?_, ?_, ?_, ?_⟩
  · exact (c9_add_relationship c9State 5 10).1 c9Child (by rfl) (by decide)
  · exact (c9_add_relationship c9State 3 10).2.1 c9Parent (by rfl) rfl (by decide)
  · exact (c9_add_relationship demoState 0 0).2.2.1 demoState_reachable
  · exact (c9_add_relationship c9State 3 11).2.2.2
      (by simp [relsPairUnique, c9State])

/-- C4: for every invite token (parent invite or child invite), accepting
succeeds only while the stored row's status is `pending` and the current
time is before `expiresAt`; a row still `pending` whose `expiresAt` has
passed is rejected with `InviteExpired` and the store is unchanged; a row
already `accepted`, `expired` or `cancelled` is rejected with
`InviteAlreadyUsed` and never accepted again. -/
theorem c4_invite_accept_only_pending_unexpired (now : Nat) (st : AppState)
    (token uid : Nat) :
    (∀ inv, st.parentInvites.find? (fun i => i.token == token) = some inv →
      ((acceptParentInvite now st token uid).2 = Except.ok () →
        inv.status = InviteStatus.pending ∧ now < inv.expiresAt) ∧
      (inv.status = InviteStatus.pending → inv.expiresAt ≤ now →
        acceptParentInvite now st token uid =
          (st, Except.error OpError.inviteExpired)) ∧
      (inv.status ≠ InviteStatus.pending →
        acceptParentInvite now st token uid =
          (st, Except.error OpError.inviteAlreadyUsed))) ∧
    (∀ inv, st.childInvites.find? (fun i => i.token == token) = some inv →
      ((acceptChildInvite now st token uid).2 = Except.ok () →
        inv.status = InviteStatus.pending ∧ now < inv.expiresAt) ∧
      (inv.status = InviteStatus.pending → inv.expiresAt ≤ now →
        acceptChildInvite now st token uid =
          (st, Except.error OpError.inviteExpired)) ∧
      (inv.status ≠ InviteStatus.pending →
        acceptChildInvite now st token uid =
          (st, Except.error OpError.inviteAlreadyUsed))) := by
  constructor
  · intro inv hf
    unfold acceptParentInvite
    simp only [hf]
    refine ⟨?_, ?_, ?_⟩
    · intro hok
      by_cases h1 : inv.status ≠ InviteStatus.pending
      · rw [if_pos h1] at hok
        exact absurd hok (by simp)
      · by_cases h2 : inv.expiresAt ≤ now
        · rw [if_neg h1, if_pos h2] at hok
          exact absurd hok (by simp)
        · exact ⟨not_not.mp h1, not_le.mp h2⟩
    · intro hp hexp
      rw [if_neg (by simp [hp]), if_pos hexp]
    · intro hnp
      rw [if_pos hnp]
  · intro inv hf
    unfold acceptChildInvite
    simp only [hf]
    refine ⟨?_, ?_, ?_⟩
    · intro hok
      by_cases h1 : inv.status ≠ InviteStatus.pending
      · rw [if_pos h1] at hok
        exact absurd hok (by simp)
      · by_cases h2 : inv.expiresAt ≤ now
        · rw [if_neg h1, if_pos h2] at hok
          exact absurd hok (by simp)
        · exact ⟨not_not.mp h1, not_le.mp h2⟩
    · intro hp hexp
      rw [if_neg (by simp [hp]), if_pos hexp]
    · intro hnp
      rw [if_pos hnp]

def c4ParentInvite : ParentInvite :=
  { id := 1, token := 11, childId := 5, inviterId := 3
    email := "coparent@example.com", status := InviteStatus.pending
    expiresAt := 50 }

def c4UsedInvite : ParentInvite :=
  { id := 2, token := 12, childId := 5, inviterId := 3
    email := "coparent@example.com", status := InviteStatus.accepted
    expiresAt := 999 }

def c4ChildInvite : ChildInvite :=
  { id := 3, token := 21, childId := 5, email := "kodomo@example.com"
    status := InviteStatus.pending, expiresAt := 50 }

def c4State : AppState :=
  { profiles := [], accounts := [], txs := [], requests := [], recurs := []
    execs := [], parentInvites := [c4ParentInvite, c4UsedInvite]
    childInvites := [c4ChildInvite], rels := [], nextId := 30 }

theorem c4_invite_accept_only_pending_unexpired_witness :
    acceptParentInvite 100 c4State 11 7 =
      (c4State, Except.error OpError.inviteExpired) ∧
    acceptParentInvite 100 c4State 12 7 =
      (c4State, Except.error OpError.inviteAlreadyUsed) ∧
    acceptChildInvite 100 c4State 21 7 =
      (c4State, Except.error OpError.inviteExpired) := by
  refine ⟨?_, ?_, ?_⟩
  · exact (((c4_invite_accept_only_pending_unexpired 100 c4State 11 7).1
      c4ParentInvite (by rfl)).2.1) rfl (by decide)
  · exact (((c4_invite_accept_only_pending_unexpired 100 c4State 12 7).1
      c4UsedInvite (by rfl)).2.2) (by decide)
  · exact (((c4_invite_accept_only_pending_unexpired 100 c4State 21 7).2
      c4ChildInvite (by rfl)).2.1) rfl (by decide)

/-- At most one `recurring_deposits` row per account. -/
def recursAtMostOnePerAccount (l : List RecurringDeposit) : Prop :=
  l.Pairwise fun r1 r2 => r1.accountId ≠ r2.accountId

/-- C6: saving a recurring deposit has create-or-update semantics — it
preserves "at most one RecurringDeposit row per account", and when the
account already has a row the save rewrites that row in place (same row
count, no second insert) and returns the updated row. -/
theorem c6_recurring_create_or_update (st : AppState) (accountId : Nat)
    (amount : Int) (day : Nat) (active : Bool) :
    (recursAtMostOnePerAccount st.recurs →
      recursAtMostOnePerAccount
        (createOrUpdateRecurringDeposit st accountId amount day active).1.recurs) ∧
    (∀ rd, st.recurs.find? (fun q => q.accountId == accountId) = some rd →
      0 < amount → 1 ≤ day → day ≤ 31 →
      ∀ a, st.accounts.find? (fun b => b.id == accountId) = some a →
      createOrUpdateRecurringDeposit st accountId amount day active =
        ({ st with
            recurs := st.recurs.map fun q =>
              if q.accountId == accountId then
                { q with amount := amount, dayOfMonth := day, isActive := active }
              else q },
          Except.ok { rd with amount := amount, dayOfMonth := day, isActive := active }) ∧
      (createOrUpdateRecurringDeposit st accountId amount day active).1.recurs.length
        = st.recurs.length) := by
  constructor
  · intro h
    unfold createOrUpdateRecurringDeposit
    split
    · exact h
    · split
      · exact h
      · split
        · exact h
        · rcases hfr : st.recurs.find? (fun rd => rd.accountId == accountId)
            with _ | rd <;> simp only [hfr]
          · refine List.pairwise_append.mpr
              ⟨h, List.pairwise_singleton _ _, ?_⟩
            intro r1 hr1 r2 hr2
            simp only [List.mem_singleton] at hr2
            subst hr2
            have := List.find?_eq_none.mp hfr r1 hr1
            simpa using this
          · refine List.pairwise_map.mpr (h.imp ?_)
            intro r1 r2 hne
            by_cases h1 : r1.accountId = accountId <;>
              by_cases h2 : r2.accountId = accountId <;>
              simp [h1, h2] <;> omega
  · intro rd hfr h0 h1 h31 a hfa
    have hd : ¬ (day < 1 ∨ 31 < day) := by omega
    unfold createOrUpdateRecurringDeposit
    simp only [if_neg (not_le.mpr h0), if_neg hd, hfa, hfr]
    exact ⟨by simp, by simp⟩

def c6Rd : RecurringDeposit :=
  { id := 2, accountId := 1, amount := 1000, dayOfMonth := 25, isActive := true }

def c6State : AppState :=
  { profiles := [], accounts := [c3Account], txs := [], requests := []
    recurs := [c6Rd], execs := [], parentInvites := [], childInvites := []
    rels := [], nextId := 9 }

theorem c6_recurring_create_or_update_witness :
    (createOrUpdateRecurringDeposit c6State 1 2000 15 true).1.recurs.length =
      c6State.recurs.length ∧
    recursAtMostOnePerAccount
      (createOrUpdateRecurringDeposit c6State 1 2000 15 true).1.recurs := by
  constructor
  · exact ((c6_recurring_create_or_update c6State 1 2000 15 true).2 c6Rd
      (by rfl) (by decide) (by decide) (by decide) c3Account (by rfl)).2
  · exact (c6_recurring_create_or_update c6State 1 2000 15 true).1
      (by simp [recursAtMostOnePerAccount, c6State])

/-- C10: the `handle_new_user` trigger links instead of creating when
possible — when a profile with the new user's email and NULL
`auth_user_id` exists, that profile gets `auth_user_id` set to the new
user's id while keeping its profile id, name, role and email (the record
update changes only `authUserId`) and no profile row is added or removed,
and the owned data (accounts, transactions) is untouched; otherwise a
brand-new profile is appended, and its role defaults to `'parent'` when
no role metadata is supplied. -/
theorem c10_handle_new_user_links_or_creates (st : AppState)
    (u : NewAuthUser) (newId : Nat) :
    (∀ p0, st.profiles.find?
        (fun p => p.email == some u.email && p.authUserId == none) = some p0 →
      (handleNewUser st u newId).profiles =
        st.profiles.map (fun p =>
          if p.id == p0.id then { p with authUserId := some u.id } else p) ∧
      { p0 with authUserId := some u.id } ∈ (handleNewUser st u newId).profiles ∧
      (handleNewUser st u newId).accounts = st.accounts ∧
      (handleNewUser st u newId).txs = st.txs ∧
      (handleNewUser st u newId).profiles.length = st.profiles.length) ∧
    (st.profiles.find?
        (fun p => p.email == some u.email && p.authUserId == none) = none →
      (handleNewUser st u newId).profiles = st.profiles ++
        [{ id := newId, authUserId := some u.id
           name := u.metaName.getD "ユーザー"
           role := u.metaRole.getD "parent", email := none }] ∧
      (u.metaRole = none →
        ∃ p ∈ (handleNewUser st u newId).profiles,
          p.id = newId ∧ p.role = "parent" ∧ p.authUserId = some u.id)) := by
  constructor
  · intro p0 hf
    unfold handleNewUser
    simp only [hf]
    refine ⟨by trivial, ?_, by trivial, by trivial, by simp⟩
    have hmem := List.mem_of_find?_eq_some hf
    simpa using List.mem_map_of_mem
      (fun p => if p.id == p0.id then { p with authUserId := some u.id } else p) hmem
  · intro hf
    unfold handleNewUser
    simp only [hf]
    refine ⟨by trivial, ?_⟩
    intro hrole
    refine ⟨{ id := newId, authUserId := some u.id, name := u.metaName.getD "ユーザー", role := u.metaRole.getD "parent", email := none }, ?_, rfl, by simp [hrole], rfl⟩
    exact List.mem_append_right _ (by simp)

def c10LinkUser : NewAuthUser :=
  { id := 77, email := "kodomo@example.com", metaName := some "こども"
    metaRole := some "child" }

def c10NewUser : NewAuthUser :=
  { id := 88, email := "papa@example.com", metaName := some "父"
    metaRole := none }

theorem c10_handle_new_user_links_or_creates_witness :
    ({ c9Child with authUserId := some 77 } ∈
      (handleNewUser c9State c10LinkUser 40).profiles) ∧
    (handleNewUser c9State c10LinkUser 40).profiles.length =
      c9State.profiles.length ∧
    (handleNewUser c9State c10LinkUser 40).accounts = c9State.accounts ∧
    (∃ p ∈ (handleNewUser c9State c10NewUser 41).profiles,
      p.id = 41 ∧ p.role = "parent" ∧ p.authUserId = some 88) := by
  refine ⟨?_, ?_, ?_, ?_⟩
  · exact ((c10_handle_new_user_links_or_creates c9State c10LinkUser 40).1
      c9Child (by rfl)).2.1
  · exact ((c10_handle_new_user_links_or_creates c9State c10LinkUser 40).1
      c9Child (by rfl)).2.2.2.2
  · exact ((c10_handle_new_user_links_or_creates c9State c10LinkUser 40).1
      c9Child (by rfl)).2.2.1
  · exact ((c10_handle_new_user_links_or_creates c9State c10NewUser 41).2
      (by rfl)).2 rfl

/-- C7: every transaction row in an observable state has a strictly
positive amount, and the log is append-only — one step only ever extends
the existing rows, and the RLS policy set of
02_row_level_security.sql declares no UPDATE and no DELETE policy on
`transactions`, so with RLS enabled those commands are denied. -/
theorem c7_transactions_positive_append_only (st st2 : AppState) :
    (Reachable st → ∀ t ∈ st.txs, 0 < t.amount) ∧
    (Step st st2 → ∃ ts, st2.txs = st.txs ++ ts) ∧
    rlsHasPolicy "transactions" PolicyCmd.update = false ∧
    rlsHasPolicy "transactions" PolicyCmd.delete = false :=
  ⟨fun h => (reachable_inv h).txPos, fun hs => step_txs hs, by rfl, by rfl⟩

theorem c7_transactions_positive_append_only_witness :
    (∀ t ∈ demoState.txs, 0 < t.amount) ∧
    (∃ ts, (deposit demoState 1 5 "ボーナス").1.txs = demoState.txs ++ ts) :=
  ⟨(c7_transactions_positive_append_only demoState demoState).1 demoState_reachable,
    (c7_transactions_positive_append_only demoState
        (deposit demoState 1 5 "ボーナス").1).2.1
      (Step.ofDeposit demoState 1 5 "ボーナス")⟩

theorem addRel_rels_extra (s : AppState) (p c : Nat) :
    ∃ extra, (addRelationship s p c).1.rels = s.rels ++ extra ∧
      ∀ r ∈ extra, r.parentId = p := by
  unfold addRelationship
  rcases hf : s.profiles.find? (fun q => q.id == p) with _ | p0 <;> simp only [hf]
  · exact ⟨[], by simp⟩
  · by_cases hrole : p0.role ≠ "parent"
    · simp only [if_pos hrole]
      exact ⟨[], by simp⟩
    · simp only [if_neg hrole]
      by_cases hdup : (s.rels.any fun r => r.parentId == p && r.childId == c) = true
      · simp only [if_pos hdup]
        exact ⟨[], by simp⟩
      · simp only [if_neg hdup]
        exact ⟨[{ id := s.nextId, parentId := p, childId := c }], rfl, by simp⟩

theorem foldAddRel_rels_extra (pid : Nat) :
    ∀ (l : List Nat) (s : AppState),
      ∃ extra, (l.foldl (fun s2 c => (addRelationship s2 pid c).1) s).rels =
          s.rels ++ extra ∧ ∀ r ∈ extra, r.parentId = pid := by
  intro l
  induction l with
  | nil => exact fun s => ⟨[], by simp⟩
  | cons c cs ih =>
    intro s
    simp only [List.foldl_cons]
    rcases addRel_rels_extra s pid c with ⟨e1, he1, ha1⟩
    rcases ih (addRelationship s pid c).1 with ⟨e2, he2, ha2⟩
    refine ⟨e1 ++ e2, ?_, ?_⟩
    · rw [he2, he1, List.append_assoc]
    · intro r hr
      rcases List.mem_append.mp hr with hr | hr
      · exact ha1 r hr
      · exact ha2 r hr

theorem addRel_mem_pair {s : AppState} {p : Nat} (c : Nat) {prof : Profile}
    (hp : s.profiles.find? (fun q => q.id == p) = some prof)
    (hrole : prof.role = "parent") :
    ∃ r ∈ (addRelationship s p c).1.rels, r.parentId = p ∧ r.childId = c := by
  unfold addRelationship
  simp only [hp, if_neg (not_not.mpr hrole)]
  by_cases hdup : (s.rels.any fun r => r.parentId == p && r.childId == c) = true
  · simp only [if_pos hdup]
    rcases List.any_eq_true.mp hdup with ⟨r, hr, hpred⟩
    simp only [Bool.and_eq_true, beq_iff_eq] at hpred
    exact ⟨r, hr, hpred.1, hpred.2⟩
  · simp only [if_neg hdup]
    exact ⟨{ id := s.nextId, parentId := p, childId := c },
      List.mem_append_right _ (by simp), rfl, rfl⟩

theorem foldAddRel_gains (pid : Nat) :
    ∀ (l : List Nat) (s : AppState) (prof : Profile),
      s.profiles.find? (fun q => q.id == pid) = some prof →
      prof.role = "parent" →
      ∀ c ∈ l, ∃ r ∈ (l.foldl (fun s2 c2 => (addRelationship s2 pid c2).1) s).rels,
        r.parentId = pid ∧ r.childId = c := by
  intro l
  induction l with
  | nil =>
    intro s prof hp hrole c hc
    simp at hc
  | cons c cs ih =>
    intro s prof hp hrole c0 hc0
    simp only [List.foldl_cons]
    rcases List.mem_cons.mp hc0 with hc0 | hc0
    · subst hc0
      rcases addRel_mem_pair c0 hp hrole with ⟨r, hr, h1, h2⟩
      rcases foldAddRel_rels_extra pid cs (addRelationship s pid c0).1
        with ⟨extra, hext, _⟩
      exact ⟨r, hext ▸ List.mem_append_left _ hr, h1, h2⟩
    · exact ih (addRelationship s pid c).1 prof
        ((addRel_profiles s pid c) ▸ hp) hrole c0 hc0

/-- C8: a successful `acceptParentInvite(token, currentParentId)` leaves
every profile (identity), every account balance and the whole transaction
log unchanged, grants the accepting parent a relationship to each of the
inviter's children, leaves the rows whose parent is the inviter exactly
as they were, and marks the invite row `accepted`. -/
theorem c8_accept_parent_invite_frame (now : Nat) (st : AppState)
    (token pid : Nat) (inv : ParentInvite) (prof : Profile)
    (hf : st.parentInvites.find? (fun i => i.token == token) = some inv)
    (hp : st.profiles.find? (fun q => q.id == pid) = some prof)
    (hrole : prof.role = "parent")
    (hpid : pid ≠ inv.inviterId)
    (hok : (acceptParentInvite now st token pid).2 = Except.ok ()) :
    (acceptParentInvite now st token pid).1.profiles = st.profiles ∧
    (acceptParentInvite now st token pid).1.accounts = st.accounts ∧
    (acceptParentInvite now st token pid).1.txs = st.txs ∧
    (∀ c ∈ childrenOf st inv.inviterId,
      ∃ r ∈ (acceptParentInvite now st token pid).1.rels,
        r.parentId = pid ∧ r.childId = c) ∧
    (acceptParentInvite now st token pid).1.rels.filter
        (fun r => r.parentId == inv.inviterId) =
      st.rels.filter (fun r => r.parentId == inv.inviterId) ∧
    ∃ inv2 ∈ (acceptParentInvite now st token pid).1.parentInvites,
      inv2.id = inv.id ∧ inv2.status = InviteStatus.accepted := by
  unfold acceptParentInvite at hok ⊢
  simp only [hf] at hok ⊢
  by_cases h1 : inv.status ≠ InviteStatus.pending
  · rw [if_pos h1] at hok
    exact absurd hok (by simp)
  · rw [if_neg h1] at hok ⊢
    by_cases h2 : inv.expiresAt ≤ now
    · rw [if_pos h2] at hok
      exact absurd hok (by simp)
    · rw [if_neg h2] at hok ⊢
      refine ⟨?_, ?_, ?_, ?_, ?_, ?_⟩
      · exact foldAddRel_profiles pid (childrenOf st inv.inviterId) st
      · exact (foldAddRel_ledgerFrame pid (childrenOf st inv.inviterId) st).1
      · exact (foldAddRel_ledgerFrame pid (childrenOf st inv.inviterId) st).2.1
      · exact foldAddRel_gains pid (childrenOf st inv.inviterId) st prof hp hrole
      · rcases foldAddRel_rels_extra pid (childrenOf st inv.inviterId) st
          with ⟨extra, hext, hall⟩
        have hfilter : extra.filter (fun r => r.parentId == inv.inviterId) = [] := by
          refine List.filter_eq_nil.mpr ?_
          intro r hr
          simp [hall r hr, hpid]
        show ((childrenOf st inv.inviterId).foldl
            (fun s2 c => (addRelationship s2 pid c).1) st).rels.filter
            (fun r => r.parentId == inv.inviterId) = _
        rw [hext, List.filter_append, hfilter, List.append_nil]
      · have htok : (inv.token == token) = true := by
          simpa using List.find?_some hf
        have hmem : inv ∈ st.parentInvites := List.mem_of_find?_eq_some hf
        refine ⟨{ inv with status := InviteStatus.accepted }, ?_, rfl, rfl⟩
        show { inv with status := InviteStatus.accepted } ∈
          (((childrenOf st inv.inviterId).foldl
              (fun s2 c => (addRelationship s2 pid c).1) st).parentInvites.map
            fun i => if i.token == token then { i with status := InviteStatus.accepted }
              else i)
        rw [foldAddRel_parentInvites]
        have := List.mem_map_of_mem
          (fun i => if i.token == token then { i with status := InviteStatus.accepted }
            else i) hmem
        simpa [htok] using this

def c8Accepter : Profile :=
  { id := 4, authUserId := some 40, name := "父", role := "parent", email := none }

def c8Invite : ParentInvite :=
  { id := 1, token := 41, childId := 10, inviterId := 3
    email := "coparent@example.com", status := InviteStatus.pending
    expiresAt := 1000 }

def c8State : AppState :=
  { profiles := [c9Parent, c8Accepter], accounts := [], txs := []
    requests := [], recurs := [], execs := [], parentInvites := [c8Invite]
    childInvites := []
    rels := [{ id := 1, parentId := 3, childId := 10 }
             , { id := 2, parentId := 3, childId := 11 }]
    nextId := 50 }

theorem c8_accept_parent_invite_frame_witness :
    (acceptParentInvite 100 c8State 41 4).1.profiles = c8State.profiles ∧
    (acceptParentInvite 100 c8State 41 4).1.txs = c8State.txs ∧
    (∃ r ∈ (acceptParentInvite 100 c8State 41 4).1.rels,
      r.parentId = 4 ∧ r.childId = 10) ∧
    (acceptParentInvite 100 c8State 41 4).1.rels.filter
        (fun r => r.parentId == 3) =
      c8State.rels.filter (fun r => r.parentId == 3) := by
  have h := c8_accept_parent_invite_frame 100 c8State 41 4 c8Invite c8Accepter
    (by rfl) (by rfl) rfl (by decide) (by rfl)
  exact ⟨h.1, h.2.2.1, h.2.2.2.1 10 (by decide), h.2.2.2.2.1⟩

def c2Exec1 : RecurringDepositExecution :=
  { id := 1, recurringDepositId := 1, transactionId := some 10
    executedAt := { year := 2025, month := 6, day := 1 }
    status := ExecStatus.success, errorMessage := none
    amount := 1000, dayOfMonth := 1 }

def c2Exec2 : RecurringDepositExecution :=
  { id := 2, recurringDepositId := 1, transactionId := some 11
    executedAt := { year := 2025, month := 6, day := 2 }
    status := ExecStatus.success, errorMessage := none
    amount := 1000, dayOfMonth := 1 }

/-- Two success rows for the same recurring deposit and the same calendar
month, with distinct primary keys. -/
def c2Table : List RecurringDepositExecution := [c2Exec1, c2Exec2]

/-- C2 counterexample: the schema of `recurring_deposit_executions` does
NOT enforce uniqueness over (recurringDepositId, year-month,
status=success) — a table holding two success rows for recurring deposit
1 in 2025-06 satisfies every constraint the schema declares. -/
theorem c2_schema_uniqueness_counterexample :
    ¬ (∀ (rdIds txIds : List Nat) (t : List RecurringDepositExecution),
        execTableValid rdIds txIds t → execMonthlyUnique t) := by
  intro h
  have hv : execTableValid [1] [10, 11] c2Table := by
    refine ⟨?_, ?_⟩
    · simp [c2Table, List.pairwise_cons, c2Exec1, c2Exec2]
    · intro e he
      simp only [c2Table, List.mem_cons, List.mem_singleton,
        List.not_mem_nil, or_false] at he
      rcases he with rfl | rfl <;>
        simp [execRowOk, c2Exec1, c2Exec2, Option.mem_def]
  have hu := h [1] [10, 11] c2Table hv
  rcases List.pairwise_cons.mp hu with ⟨h12, _⟩
  exact h12 c2Exec2 (by simp [c2Table]) ⟨rfl, rfl, rfl, rfl, rfl⟩

theorem deposit_execs (st : AppState) (a : Nat) (m : Int) (d : String) :
    (deposit st a m d).1.execs = st.execs := by
  unfold deposit
  split
  · rfl
  · split <;> rfl

theorem runRecurringOne_monthlyUnique {st : AppState} (today : Timestamp)
    (rd : RecurringDeposit) (h : execMonthlyUnique st.execs) :
    execMonthlyUnique (runRecurringOne today st rd).execs := by
  unfold runRecurringOne
  by_cases hact : (rd.isActive &&
      today.day == runDay rd.dayOfMonth today.year today.month) = true
  · simp only [if_pos hact]
    by_cases hsk : hasSuccessFor st.execs rd.id today.year today.month = true
    · simp only [if_pos hsk]; exact h
    · simp only [if_neg hsk]
      rcases hdep : deposit st rd.accountId rd.amount "定期入金" with ⟨st2, res⟩
      have hex := deposit_execs st rd.accountId rd.amount "定期入金"
      rw [hdep] at hex
      rcases res with e | t <;> simp only [hdep]
      · refine List.pairwise_append.mpr ⟨h, List.pairwise_singleton _ _, ?_⟩
        intro e1 he1 e2 he2
        simp only [List.mem_singleton] at he2
        subst he2
        intro hcon
        exact absurd hcon.2.2.2.2 (by simp)
      · show execMonthlyUnique (st2.execs ++ _)
        rw [hex]
        refine List.pairwise_append.mpr ⟨h, List.pairwise_singleton _ _, ?_⟩
        intro e1 he1 e2 he2
        simp only [List.mem_singleton] at he2
        subst he2
        intro hcon
        have := List.any_eq_false.mp (Bool.eq_false_iff.mpr hsk) e1 he1
        simp only [Bool.and_eq_true, beq_iff_eq, not_and] at this
        exact this ⟨⟨by simpa using hcon.1, by simpa using hcon.2.2.2.1⟩,
          by simpa using hcon.2.1⟩ (by simpa using hcon.2.2.1)
  · simp only [if_neg hact]; exact h

theorem runRecurringBatch_monthlyUnique (today : Timestamp) {st : AppState}
    (h : execMonthlyUnique st.execs) :
    execMonthlyUnique (runRecurringBatch today st).execs := by
  unfold runRecurringBatch
  generalize st.recurs = l
  induction l generalizing st with
  | nil => exact h
  | cons rd rds ih =>
    simp only [List.foldl_cons]
    exact ih (runRecurringOne_monthlyUnique today rd h)

/-- C2 amended: the storage schema does not enforce any uniqueness over
(recurringDepositId, year-month, status=success) — its declared
constraints admit two success rows for the same recurring deposit and
month —; at most one success row per month is guaranteed only by the
scheduler's application-side pre-check, which preserves the property
across (sequential) scheduler invocations. -/
theorem c2_monthly_uniqueness_only_by_precheck :
    (execTableValid [1] [10, 11] c2Table ∧ ¬ execMonthlyUnique c2Table) ∧
    (∀ (today : Timestamp) (st : AppState), execMonthlyUnique st.execs →
      execMonthlyUnique (runRecurringBatch today st).execs) := by
  refine ⟨⟨?_, ?_⟩, ?_⟩
  · refine ⟨?_, ?_⟩
    · simp [c2Table, List.pairwise_cons, c2Exec1, c2Exec2]
    · intro e he
      simp only [c2Table, List.mem_cons, List.mem_singleton,
        List.not_mem_nil, or_false] at he
      rcases he with rfl | rfl <;>
        simp [execRowOk, c2Exec1, c2Exec2, Option.mem_def]
  · intro hu
    rcases List.pairwise_cons.mp hu with ⟨h12, _⟩
    exact h12 c2Exec2 (by simp [c2Table]) ⟨rfl, rfl, rfl, rfl, rfl⟩
  · exact fun today st h => runRecurringBatch_monthlyUnique today h

theorem c2_monthly_uniqueness_only_by_precheck_witness :
    execMonthlyUnique
      (runRecurringBatch { year := 2025, month := 6, day := 25 } c6State).execs :=
  c2_monthly_uniqueness_only_by_precheck.2
    { year := 2025, month := 6, day := 25 } c6State List.Pairwise.nil

end KodomoWallet
